import Mathlib

/-!
Verification development for the Pleco chess engine core.

The move generator (`src/board/movegen.rs`) is embedded directly; the board
representation, magic attack tables and the `Board` query methods it calls
live outside the sampled sources and are modelled from the specification
(`spec.md`, sections 3 and 4.1-4.3).  The thread-pool coordinator
(`pleco_engine/src/threadpool/mod.rs`) and `BestMove` (`src/bots/mod.rs`)
are embedded as explicit state-passing functions.
-/

set_option maxHeartbeats 4000000
set_option maxRecDepth 10000

namespace Pleco

/-- Squares are integers 0..63, file-major (a1 = 0, h1 = 7, a8 = 56). -/
abbrev Square := Fin 64

/-- The two players. -/
inductive Player where
  | White
  | Black
deriving DecidableEq, Repr

/-- `Player::other_player`. -/
def Player.other : Player → Player
  | .White => .Black
  | .Black => .White

/-- Piece kinds, as in the source `Piece` enum. -/
inductive Piece where
  | P
  | N
  | B
  | R
  | Q
  | K
deriving DecidableEq, Repr

/-- Castling sides, as in the source `CastleType` enum. -/
inductive CastleType where
  | KingSide
  | QueenSide
deriving DecidableEq, Repr

/-- Generation types, as in the source `GenTypes` enum. -/
inductive GenTypes where
  | All
  | Captures
  | Quiets
  | QuietChecks
  | Evasions
  | NonEvasions
deriving DecidableEq, Repr

/-- Move flags, as in the source `MoveFlag` enum. -/
inductive MoveFlag where
  | QuietMove
  | DoublePawnPush
  | Castle (king_side : Bool)
  | Capture (ep_capture : Bool)
  | Promotion (capture : Bool) (prom : Piece)
deriving DecidableEq, Repr

/-- A move: source square, destination square and flag (the 16-bit packing of
`BitMove` is not needed by any claim; the spec describes it as a packed
(from, to, flag) triple). -/
structure BitMove where
  src : Square
  dst : Square
  flag : MoveFlag
deriving DecidableEq, Repr

/-- A bitboard is a set of squares (the source uses a 64-bit word). -/
abbrev BB := Finset Square

/-- File index 0..7 of a square. -/
def fileOf (s : Square) : Nat := s.val % 8

/-- Rank index 0..7 of a square. -/
def rankOf (s : Square) : Nat := s.val / 8

/-- Offset a square by a (file, rank) delta, `none` when off the board. -/
def offD (s : Square) (df dr : Int) : Option Square :=
  let f : Int := (fileOf s : Int) + df
  let r : Int := (rankOf s : Int) + dr
  if h : 0 ≤ f ∧ f < 8 ∧ 0 ≤ r ∧ r < 8 then
    some ⟨r.toNat * 8 + f.toNat, by omega⟩
  else none

/-- Shift every square of a bitboard by a delta, dropping squares that leave
the board (models the masked bit-shifts of the source). -/
def shiftD (df dr : Int) (bb : BB) : BB :=
  bb.biUnion fun s => (offD s df dr).toFinset

/-- Iterating a bitboard: the source pops the least significant bit first,
i.e. visits squares in increasing index order. -/
def bb_list (bb : BB) : List Square := (List.finRange 64).filter (fun s => s ∈ bb)

/-- Least set square of a bitboard (`bit_scan_forward`); 0 on the empty set. -/
def bb_lsb (bb : BB) : Square := (bb_list bb).headD 0

/-- Modelled from the spec (4.1): walk of one sliding-piece ray; the ray stops
at (and includes) the first occupied square. -/
def rayAux (occb : BB) (df dr : Int) : Nat → Square → BB
  | 0, _ => ∅
  | n + 1, s =>
    match offD s df dr with
    | none => ∅
    | some t => insert t (if t ∈ occb then ∅ else rayAux occb df dr n t)

/-- A full sliding ray from a square (at most 7 steps reach the edge). -/
def ray (occb : BB) (df dr : Int) (s : Square) : BB :=
  rayAux occb df dr 7 s

/-- Modelled from the spec (4.1): rook attacks given an occupancy. -/
def rook_moves (occb : BB) (s : Square) : BB :=
  ray occb 1 0 s ∪ ray occb (-1) 0 s ∪ ray occb 0 1 s ∪ ray occb 0 (-1) s

/-- Modelled from the spec (4.1): bishop attacks given an occupancy. -/
def bishop_moves (occb : BB) (s : Square) : BB :=
  ray occb 1 1 s ∪ ray occb 1 (-1) s ∪ ray occb (-1) 1 s ∪ ray occb (-1) (-1) s

/-- Modelled from the spec (4.1): queen attacks combine bishop and rook. -/
def queen_moves (occb : BB) (s : Square) : BB :=
  rook_moves occb s ∪ bishop_moves occb s

/-- Modelled from the spec (4.1): knight attack table. -/
def knight_moves (s : Square) : BB :=
  [((1 : Int), (2 : Int)), (2, 1), (2, -1), (1, -2), (-1, -2), (-2, -1), (-2, 1), (-1, 2)].foldr
    (fun d acc => (offD s d.1 d.2).toFinset ∪ acc) ∅

/-- Modelled from the spec (4.1): king attack table. -/
def king_moves (s : Square) : BB :=
  [((1 : Int), (0 : Int)), (1, 1), (0, 1), (-1, 1), (-1, 0), (-1, -1), (0, -1), (1, -1)].foldr
    (fun d acc => (offD s d.1 d.2).toFinset ∪ acc) ∅

/-- Modelled from the spec (4.1/4.3): squares attacked by a pawn of the given
color standing on `s` (the source's `magic.pawn_attacks_from(s, player)`). -/
def pawn_attacks_from (s : Square) (p : Player) : BB :=
  match p with
  | .White => (offD s (-1) 1).toFinset ∪ (offD s 1 1).toFinset
  | .Black => (offD s (-1) (-1)).toFinset ∪ (offD s 1 (-1)).toFinset

/-- Two distinct squares on a common rank, file or diagonal. -/
def alignedB (a b : Square) : Bool :=
  a ≠ b ∧
    (fileOf a = fileOf b ∨ rankOf a = rankOf b ∨
      ((fileOf a : Int) - fileOf b).natAbs = ((rankOf a : Int) - rankOf b).natAbs)

/-- `c` lies on the infinite line through `a` and `b` (determinant test; for
the rank/file/diagonal lines of a chess board this picks out exactly the
squares of the line). -/
def collin (a b c : Square) : Bool :=
  ((fileOf b : Int) - fileOf a) * ((rankOf c : Int) - rankOf a) =
    ((rankOf b : Int) - rankOf a) * ((fileOf c : Int) - fileOf a)

/-- Modelled from the spec (4.1): `line[a][b]`, the full ray through two
collinear squares (empty when they are not collinear). -/
def lineBB (a b : Square) : BB :=
  if alignedB a b then Finset.univ.filter (fun c => collin a b c) else ∅

/-- Modelled from the spec (4.1): `between[a][b]`, the squares strictly
between two collinear squares (empty otherwise). -/
def betweenBB (a b : Square) : BB :=
  if alignedB a b then
    Finset.univ.filter (fun c =>
      collin a b c ∧ c ≠ a ∧ c ≠ b ∧
        min (fileOf a) (fileOf b) ≤ fileOf c ∧ fileOf c ≤ max (fileOf a) (fileOf b) ∧
        min (rankOf a) (rankOf b) ≤ rankOf c ∧ rankOf c ≤ max (rankOf a) (rankOf b))
  else ∅

/-- All squares of absolute rank index `i`. -/
def rank_bb (i : Nat) : BB := Finset.univ.filter (fun c => rankOf c = i)

/-- All squares on the file of `s` (`SQ::file_bb`). -/
def file_bb (s : Square) : BB := Finset.univ.filter (fun c => fileOf c = fileOf s)

/-- Mirror a square for Black (`Player::relative_square`). -/
def rel_sq (p : Player) (s : Square) : Square :=
  match p with
  | .White => s
  | .Black => ⟨(7 - rankOf s) * 8 + fileOf s, by
      have := s.isLt
      simp only [fileOf, rankOf]
      omega⟩

/-- Modelled from the spec (section 3, Position): the board state the move
generator consults.  The 12 piece bitboards are the primary data; occupancy
boards and the mailbox are derived (the spec calls them redundant caches). -/
structure Board where
  pieces : Player → Piece → BB
  turn : Player
  castle_rights : Player → CastleType → Bool
  ep : Option Square

/-- Occupancy of one player (`Board::get_occupied_player`). -/
def player_occ (b : Board) (p : Player) : BB :=
  b.pieces p .P ∪ b.pieces p .N ∪ b.pieces p .B ∪ b.pieces p .R ∪ b.pieces p .Q ∪
    b.pieces p .K

/-- Total occupancy (`Board::get_occupied`). -/
def get_occupied (b : Board) : BB := player_occ b .White ∪ player_occ b .Black

/-- Squares of the player to move (the generator's `us_occ`). -/
def us_occ (b : Board) : BB := player_occ b b.turn

/-- Squares of the opponent (the generator's `them_occ`). -/
def them_occ (b : Board) : BB := player_occ b b.turn.other

/-- Modelled from the spec (section 3): the mailbox lookup
(`Board::piece_at_sq`), derived from the piece bitboards. -/
def piece_at_sq (b : Board) (s : Square) : Option Piece :=
  [Piece.P, Piece.N, Piece.B, Piece.R, Piece.Q, Piece.K].find?
    (fun pc => decide (s ∈ b.pieces .White pc ∨ s ∈ b.pieces .Black pc))

/-- Modelled from the spec: `Board::king_sq`; under the one-king invariant the
king bitboard is a singleton and this returns its square. -/
def king_sq (b : Board) (p : Player) : Square := bb_lsb (b.pieces p .K)

/-- Pawns and knights of both players
(`Board::piece_two_bb_both_players(P, N)`). -/
def pawns_and_knights (b : Board) : BB :=
  b.pieces .White .P ∪ b.pieces .Black .P ∪ b.pieces .White .N ∪ b.pieces .Black .N

/-- Modelled from the spec (4.2): `Board::attackers_to(sq, occ)` — all pieces
of either color attacking a square under the given occupancy. -/
def attackers_to (b : Board) (s : Square) (occb : BB) : BB :=
  (pawn_attacks_from s .White ∩ b.pieces .Black .P) ∪
    (pawn_attacks_from s .Black ∩ b.pieces .White .P) ∪
    (knight_moves s ∩ (b.pieces .White .N ∪ b.pieces .Black .N)) ∪
    (king_moves s ∩ (b.pieces .White .K ∪ b.pieces .Black .K)) ∪
    (rook_moves occb s ∩
      (b.pieces .White .R ∪ b.pieces .Black .R ∪ b.pieces .White .Q ∪ b.pieces .Black .Q)) ∪
    (bishop_moves occb s ∩
      (b.pieces .White .B ∪ b.pieces .Black .B ∪ b.pieces .White .Q ∪ b.pieces .Black .Q))

/-- Modelled from the spec: `Board::checkers()` — the opponent pieces
attacking the king of the side to move. -/
def checkers (b : Board) : BB :=
  attackers_to b (king_sq b b.turn) (get_occupied b) ∩ them_occ b

/-- Modelled from the spec (4.2): `Board::in_check()`. -/
def in_check (b : Board) : Bool := (checkers b).Nonempty

/-- Sliding pieces of `owner` that attack `s` under occupancy `occb`. -/
def slider_attackers (b : Board) (owner : Player) (occb : BB) (s : Square) : BB :=
  (rook_moves occb s ∩ (b.pieces owner .R ∪ b.pieces owner .Q)) ∪
    (bishop_moves occb s ∩ (b.pieces owner .B ∪ b.pieces owner .Q))

/-- Modelled from the spec (4.3): `Board::discovered_check_candidates()` —
own pieces that block an own slider's attack on the enemy king (removing the
piece reveals a new slider attack). -/
def discovered_check_candidates (b : Board) : BB :=
  (us_occ b).filter fun s =>
    slider_attackers b b.turn ((get_occupied b).erase s) (king_sq b b.turn.other) ≠
      slider_attackers b b.turn (get_occupied b) (king_sq b b.turn.other)

/-- Modelled from the spec (4.2): `Board::pinned_pieces(p)` — pieces of `p`
that block an enemy slider's attack on `p`'s own king. -/
def pinned_pieces (b : Board) (p : Player) : BB :=
  (player_occ b p).filter fun s =>
    slider_attackers b p.other ((get_occupied b).erase s) (king_sq b p) ≠
      slider_attackers b p.other (get_occupied b) (king_sq b p)

/-- Modelled from the spec (4.3): the original rook square for a castle
(`Board::castling_rook_square`). -/
def castling_rook_square (p : Player) (side : CastleType) : Square :=
  rel_sq p (if side = .KingSide then 7 else 0)

/-- Modelled from the spec (4.3): `Board::can_castle` — the castling-rights
bit of the given player and side. -/
def can_castle (b : Board) (p : Player) (side : CastleType) : Bool :=
  b.castle_rights p side

/-- Modelled from the spec (4.3): `Board::castle_impeded` — some square
between the king and the castling rook is occupied. -/
def castle_impeded (b : Board) (side : CastleType) : Bool :=
  (betweenBB (king_sq b b.turn) (castling_rook_square b.turn side) ∩ get_occupied b).Nonempty

/-- Forward direction of a player's pawns (as a rank delta). -/
def pawn_dr (p : Player) : Int :=
  match p with
  | .White => 1
  | .Black => -1

/-- `PlayerTrait::shift_up` — pawns advance one rank. -/
def shift_up (p : Player) (bb : BB) : BB := shiftD 0 (pawn_dr p) bb

/-- `PlayerTrait::shift_up_left` — capture shift toward the lower file for
White, mirrored for Black. -/
def shift_up_left (p : Player) (bb : BB) : BB :=
  match p with
  | .White => shiftD (-1) 1 bb
  | .Black => shiftD 1 (-1) bb

/-- `PlayerTrait::shift_up_right`. -/
def shift_up_right (p : Player) (bb : BB) : BB :=
  match p with
  | .White => shiftD 1 1 bb
  | .Black => shiftD (-1) (-1) bb

/-- `PlayerTrait::down` of a square (inverse of the one-rank advance); the
squares fed to it by the generator always have a predecessor, the default is
never used there. -/
def down (p : Player) (s : Square) : Square := (offD s 0 (-(pawn_dr p))).getD s

/-- `PlayerTrait::down_right` — inverse of `shift_up_left`. -/
def down_right (p : Player) (s : Square) : Square :=
  match p with
  | .White => (offD s 1 (-1)).getD s
  | .Black => (offD s (-1) 1).getD s

/-- `PlayerTrait::down_left` — inverse of `shift_up_right`. -/
def down_left (p : Player) (s : Square) : Square :=
  match p with
  | .White => (offD s (-1) (-1)).getD s
  | .Black => (offD s 1 1).getD s

/-- Modelled from the spec (4.2, `is_legal`): (a) a king move must not move
onto an attacked square; (b) an en-passant capture must not uncover a slider
attack on the own king; (c) any other move of a pinned piece must stay on the
pin ray through the king.  Castles were fully verified at generation. -/
def legal_move (b : Board) (m : BitMove) : Bool :=
  let p := b.turn
  let ksq := king_sq b p
  match m.flag with
  | .Capture true =>
    let capSq := down p m.dst
    let occ2 := insert m.dst (((get_occupied b).erase m.src).erase capSq)
    ¬ (slider_attackers b p.other occ2 ksq).Nonempty
  | .Castle _ => true
  | _ =>
    if m.src = ksq then
      ¬ (attackers_to b m.dst ((get_occupied b).erase ksq) ∩ them_occ b).Nonempty
    else
      if m.src ∈ pinned_pieces b p then m.dst ∈ lineBB ksq m.src else true

/-!  The move generator, `MoveGen` in `src/board/movegen.rs`.  The `Legality`
type parameter becomes a boolean `L` (`Legality::gen_legal()`), the
`PlayerTrait` monomorphization becomes an explicit player argument `p`, and
each generation routine returns the list of moves it appends, in append
order (bitboards are consumed least-significant-bit first). -/

/-- `MoveGen::check_and_add`: in legal mode a move is kept only when
`Board::legal_move` accepts it; in pseudo-legal mode it is always kept. -/
def check_and_add (L : Bool) (b : Board) (m : BitMove) : List BitMove :=
  if L then (if legal_move b m then [m] else []) else [m]

/-- `MoveGen::move_append_from_bb`: one move per destination bit. -/
def move_append_from_bb (L : Bool) (b : Board) (bits : BB) (src : Square)
    (flag : MoveFlag) : List BitMove :=
  (bb_list bits).flatMap fun dst => check_and_add L b { src := src, dst := dst, flag := flag }

/-- `MoveGen::moves_bb`: attack bitboard of a non-pawn piece (the source
panics on a pawn; pawns never reach this function). -/
def moves_bb (b : Board) (pc : Piece) (s : Square) : BB :=
  match pc with
  | .P => ∅
  | .N => knight_moves s
  | .B => bishop_moves (get_occupied b) s
  | .R => rook_moves (get_occupied b) s
  | .Q => queen_moves (get_occupied b) s
  | .K => king_moves s

/-- `MoveGen::moves_per_piece`: for each piece of the given kind, captures
then non-captures into the target. -/
def moves_per_piece (L : Bool) (p : Player) (b : Board) (pc : Piece) (target : BB) :
    List BitMove :=
  (bb_list (b.pieces p pc)).flatMap fun src =>
    let mvs := moves_bb b pc src ∩ (us_occ b)ᶜ ∩ target
    move_append_from_bb L b (mvs ∩ them_occ b) src (.Capture false) ++
      move_append_from_bb L b (mvs ∩ (them_occ b)ᶜ) src .QuietMove

/-- `MoveGen::create_all_promotions`: the four promotion moves (Q, N, R, B)
for one destination. -/
def create_all_promotions (L : Bool) (b : Board) (dst src : Square) (is_capture : Bool) :
    List BitMove :=
  [Piece.Q, Piece.N, Piece.R, Piece.B].flatMap fun pc =>
    check_and_add L b { src := src, dst := dst, flag := .Promotion is_capture pc }

/-- The `(rank_8, rank_7, rank_3)` triple of `generate_pawn_moves`. -/
def pawn_rank_8 (p : Player) : BB := if p = .White then rank_bb 7 else rank_bb 0

/-- Second component of the rank triple. -/
def pawn_rank_7 (p : Player) : BB := if p = .White then rank_bb 6 else rank_bb 1

/-- Third component of the rank triple. -/
def pawn_rank_3 (p : Player) : BB := if p = .White then rank_bb 2 else rank_bb 5

/-- `all_pawns & rank_7` of `generate_pawn_moves`. -/
def pawns_on_7 (p : Player) (b : Board) : BB := b.pieces p .P ∩ pawn_rank_7 p

/-- `all_pawns & !rank_7` of `generate_pawn_moves`. -/
def pawns_not_7 (p : Player) (b : Board) : BB := b.pieces p .P ∩ (pawn_rank_7 p)ᶜ

/-- The `enemies` bitboard of `generate_pawn_moves`. -/
def pawn_enemies (gt : GenTypes) (b : Board) (target : BB) : BB :=
  if gt = .Evasions then them_occ b ∩ target
  else if gt = .Captures then target
  else them_occ b

/-- The `empty_squares` bitboard as set by the push block of
`generate_pawn_moves` (only read when `gt ≠ Captures`). -/
def pawn_empty (gt : GenTypes) (b : Board) (target : BB) : BB :=
  if gt = .Quiets ∨ gt = .QuietChecks then target else (get_occupied b)ᶜ

/-- `push_one` before the Evasions/QuietChecks adjustments. -/
def push_one_pre (gt : GenTypes) (p : Player) (b : Board) (target : BB) : BB :=
  pawn_empty gt b target ∩ shift_up p (pawns_not_7 p b)

/-- `push_two` before the Evasions/QuietChecks adjustments. -/
def push_two_pre (gt : GenTypes) (p : Player) (b : Board) (target : BB) : BB :=
  shift_up p (push_one_pre gt p b target ∩ pawn_rank_3 p) ∩ pawn_empty gt b target

/-- `push_one` after the Evasions mask. -/
def push_one_ev (gt : GenTypes) (p : Player) (b : Board) (target : BB) : BB :=
  if gt = .Evasions then push_one_pre gt p b target ∩ target else push_one_pre gt p b target

/-- `push_two` after the Evasions mask. -/
def push_two_ev (gt : GenTypes) (p : Player) (b : Board) (target : BB) : BB :=
  if gt = .Evasions then push_two_pre gt p b target ∩ target else push_two_pre gt p b target

/-- The `dc1` bitboard of the QuietChecks branch: pushes of discovered-check
candidate pawns that leave the enemy king's file. -/
def push_dc1 (gt : GenTypes) (p : Player) (b : Board) (target : BB) : BB :=
  shift_up p (pawns_not_7 p b ∩ discovered_check_candidates b) ∩ pawn_empty gt b target ∩
    (file_bb (king_sq b p.other))ᶜ

/-- The `dc2` bitboard of the QuietChecks branch. -/
def push_dc2 (gt : GenTypes) (p : Player) (b : Board) (target : BB) : BB :=
  shift_up p (pawn_rank_3 p ∩ push_dc1 gt p b target) ∩ pawn_empty gt b target

/-- Final `push_one` (with the QuietChecks restriction and additions). -/
def push_one_fin (gt : GenTypes) (p : Player) (b : Board) (target : BB) : BB :=
  if gt = .QuietChecks then
    (push_one_ev gt p b target ∩ pawn_attacks_from (king_sq b p.other) p.other) ∪
      (if (pawns_not_7 p b ∩ discovered_check_candidates b).Nonempty then
        push_dc1 gt p b target
      else ∅)
  else push_one_ev gt p b target

/-- Final `push_two`. -/
def push_two_fin (gt : GenTypes) (p : Player) (b : Board) (target : BB) : BB :=
  if gt = .QuietChecks then
    (push_two_ev gt p b target ∩ pawn_attacks_from (king_sq b p.other) p.other) ∪
      (if (pawns_not_7 p b ∩ discovered_check_candidates b).Nonempty then
        push_dc2 gt p b target
      else ∅)
  else push_two_ev gt p b target

/-- The single- and double-push block of `MoveGen::generate_pawn_moves`
(skipped for `Captures`). -/
def pawn_pushes (L : Bool) (gt : GenTypes) (p : Player) (b : Board) (target : BB) :
    List BitMove :=
  if gt ≠ .Captures then
    ((bb_list (push_one_fin gt p b target)).flatMap fun dst =>
        check_and_add L b { src := down p dst, dst := dst, flag := .QuietMove }) ++
      ((bb_list (push_two_fin gt p b target)).flatMap fun dst =>
        check_and_add L b { src := down p (down p dst), dst := dst, flag := .DoublePawnPush })
  else []

/-- The `empty_squares` value read by the promotion block. -/
def promo_empty (gt : GenTypes) (b : Board) (target : BB) : BB :=
  if gt = .Captures then (get_occupied b)ᶜ
  else if gt = .Evasions then pawn_empty gt b target ∩ target
  else pawn_empty gt b target

/-- The promotion block of `MoveGen::generate_pawn_moves`. -/
def pawn_promos (L : Bool) (gt : GenTypes) (p : Player) (b : Board) (target : BB) :
    List BitMove :=
  if (pawns_on_7 p b).Nonempty ∧ (gt ≠ .Evasions ∨ (target ∩ pawn_rank_8 p).Nonempty) then
    ((bb_list (shift_up p (pawns_on_7 p b) ∩ promo_empty gt b target)).flatMap fun dst =>
        create_all_promotions L b dst (down p dst) false) ++
      ((bb_list (shift_up_left p (pawns_on_7 p b) ∩ pawn_enemies gt b target)).flatMap fun dst =>
        create_all_promotions L b dst (down_right p dst) true) ++
      ((bb_list (shift_up_right p (pawns_on_7 p b) ∩ pawn_enemies gt b target)).flatMap fun dst =>
        create_all_promotions L b dst (down_left p dst) true)
  else []

/-- The en-passant part of the capture block of `generate_pawn_moves`. -/
def pawn_ep_moves (L : Bool) (gt : GenTypes) (p : Player) (b : Board) (target : BB) :
    List BitMove :=
  match b.ep with
  | some ep_sq =>
    if gt ≠ .Evasions ∨ (target ∩ {down p ep_sq}).Nonempty then
      (bb_list (pawns_not_7 p b ∩ pawn_attacks_from ep_sq p.other)).flatMap fun src =>
        check_and_add L b { src := src, dst := ep_sq, flag := .Capture true }
    else []
  | none => []

/-- The capture block of `MoveGen::generate_pawn_moves` (left captures, right
captures, then en passant). -/
def pawn_caps (L : Bool) (gt : GenTypes) (p : Player) (b : Board) (target : BB) :
    List BitMove :=
  if gt = .Captures ∨ gt = .Evasions ∨ gt = .NonEvasions ∨ gt = .All then
    ((bb_list (shift_up_left p (pawns_not_7 p b) ∩ pawn_enemies gt b target)).flatMap fun dst =>
        check_and_add L b { src := down_right p dst, dst := dst, flag := .Capture false }) ++
      ((bb_list (shift_up_right p (pawns_not_7 p b) ∩ pawn_enemies gt b target)).flatMap fun dst =>
        check_and_add L b { src := down_left p dst, dst := dst, flag := .Capture false }) ++
      pawn_ep_moves L gt p b target
  else []

/-- `MoveGen::generate_pawn_moves`: pushes, promotions, captures. -/
def generate_pawn_moves (L : Bool) (gt : GenTypes) (p : Player) (b : Board) (target : BB) :
    List BitMove :=
  pawn_pushes L gt p b target ++ pawn_promos L gt p b target ++ pawn_caps L gt p b target

/-- `MoveGen::generate_king_moves`. -/
def generate_king_moves (L : Bool) (p : Player) (b : Board) (target : BB) : List BitMove :=
  moves_per_piece L p b .K target

/-- The king-path walk of `MoveGen::castling_side`: starting from the king's
destination, every square before reaching the king's origin must not be
attacked by an enemy piece. -/
def castle_path_ok (b : Board) (ksq : Square) (df : Int) : Nat → Square → Bool
  | 0, _ => true
  | n + 1, s =>
    if s = ksq then true
    else if (attackers_to b s (get_occupied b) ∩ them_occ b).Nonempty then false
    else castle_path_ok b ksq df n ((offD s df 0).getD s)

/-- `MoveGen::castling_side`: guard (not impeded, right present, rook in
place), then the king-path walk, then a single castle move encoded with the
rook square as destination. -/
def castling_side (L : Bool) (p : Player) (side : CastleType) (b : Board) : List BitMove :=
  if ¬ castle_impeded b side = true ∧ can_castle b p side = true ∧
      piece_at_sq b (castling_rook_square p side) = some Piece.R then
    let king_side := side = CastleType.KingSide
    let ksq := king_sq b p
    let r_from := castling_rook_square p side
    let k_to := rel_sq p (if king_side then 6 else 2)
    let df : Int := if king_side then -1 else 1
    if castle_path_ok b ksq df 8 k_to then
      check_and_add L b { src := ksq, dst := r_from, flag := .Castle king_side }
    else []
  else []

/-- `MoveGen::generate_castling`: queen side then king side. -/
def generate_castling (L : Bool) (p : Player) (b : Board) : List BitMove :=
  castling_side L p .QueenSide b ++ castling_side L p .KingSide b

/-- `MoveGen::generate_all`: pawns, knights, bishops, rooks, queens, then
king moves (except for QuietChecks/Evasions) and castling (except for
Captures/Evasions). -/
def generate_all (L : Bool) (gt : GenTypes) (p : Player) (b : Board) (target : BB) :
    List BitMove :=
  generate_pawn_moves L gt p b target ++
    moves_per_piece L p b .N target ++
    moves_per_piece L p b .B target ++
    moves_per_piece L p b .R target ++
    moves_per_piece L p b .Q target ++
    (if gt ≠ .QuietChecks ∧ gt ≠ .Evasions then generate_king_moves L p b target else []) ++
    (if gt ≠ .Captures ∧ gt ≠ .Evasions then generate_castling L p b else [])

/-- The discovered-check loop of `MoveGen::generate_quiet_checks`: for each
non-pawn discovered-check candidate, its non-capturing moves (a candidate
king further restricted by the source to `queen_moves(0, enemy king)`). -/
def qc_dc_moves (L : Bool) (p : Player) (b : Board) : List BitMove :=
  (bb_list (discovered_check_candidates b)).flatMap fun sq =>
    let pc := (piece_at_sq b sq).getD Piece.K
    if pc ≠ Piece.P then
      let b0 := moves_bb b pc sq ∩ (get_occupied b)ᶜ
      let b1 := if pc = Piece.K then b0 ∩ queen_moves ∅ (king_sq b p.other) else b0
      move_append_from_bb L b b1 sq .QuietMove
    else []

/-- `MoveGen::generate_quiet_checks`. -/
def generate_quiet_checks (L : Bool) (p : Player) (b : Board) : List BitMove :=
  qc_dc_moves L p b ++ generate_all L .QuietChecks p b (get_occupied b)ᶜ

/-- The `slider_attacks` bitboard of `MoveGen::generate_evasions`: for every
checking slider, the full line through it and the king, with the checker's
own square removed (the source XORs it out). -/
def evasion_slider_attacks (p : Player) (b : Board) : BB :=
  (checkers b ∩ (pawns_and_knights b)ᶜ).biUnion fun s =>
    symmDiff (lineBB s (king_sq b p)) {s}

/-- The king destinations of `MoveGen::generate_evasions`. -/
def evasion_k_moves (p : Player) (b : Board) : BB :=
  king_moves (king_sq b p) ∩ (evasion_slider_attacks p b)ᶜ ∩ (us_occ b)ᶜ

/-- The block-or-capture target of `MoveGen::generate_evasions` (single
checker): squares between king and checker, plus the checker. -/
def evasion_target (p : Player) (b : Board) : BB :=
  betweenBB (bb_lsb (checkers b)) (king_sq b p) ∪ {bb_lsb (checkers b)}

/-- `MoveGen::generate_evasions`: king captures, king quiet moves, then — if
at most one checker — all moves into the block-or-capture target. -/
def generate_evasions (L : Bool) (p : Player) (b : Board) : List BitMove :=
  let ksq := king_sq b p
  move_append_from_bb L b (evasion_k_moves p b ∩ them_occ b) ksq (.Capture false) ++
    move_append_from_bb L b (evasion_k_moves p b ∩ (them_occ b)ᶜ) ksq .QuietMove ++
    (if ¬ 1 < (checkers b).card then generate_all L .Evasions p b (evasion_target p b)
    else [])

/-- `MoveGen::generate_non_evasions`: derive the target from the generation
type and run `generate_all` (the source asserts `gt` is one of NonEvasions,
Captures, Quiets and that the board is not in check). -/
def generate_non_evasions (L : Bool) (gt : GenTypes) (p : Player) (b : Board) :
    List BitMove :=
  let target : BB :=
    match gt with
    | .NonEvasions => (us_occ b)ᶜ
    | .Captures => them_occ b
    | .Quiets => (us_occ b ∪ them_occ b)ᶜ
    | _ => ∅
  generate_all L gt p b target

/-- `MoveGen::generate_helper`: dispatch on the generation type; `All`
dispatches on `in_check`. -/
def generate_helper (L : Bool) (gt : GenTypes) (p : Player) (b : Board) : List BitMove :=
  if gt = .Evasions then generate_evasions L p b
  else if gt = .QuietChecks then generate_quiet_checks L p b
  else if gt = .All then
    (if in_check b then generate_evasions L p b else generate_non_evasions L .NonEvasions p b)
  else generate_non_evasions L gt p b

/-- `MoveGen::generate`: monomorphize on the side to move. -/
def generate (L : Bool) (gt : GenTypes) (b : Board) : List BitMove :=
  generate_helper L gt b.turn b

/-- The assertion in the en-passant branch of `generate_pawn_moves`
(line 467): the en-passant square lies on the player-relative rank 6. -/
def ep_rank_assert (p : Player) (b : Board) : Bool :=
  match b.ep with
  | some e => rankOf e = (if p = .White then 5 else 2)
  | none => true

/-- Castling rights after a move: modelled from the spec (4.2), "clear any
whose king or rook square is touched". -/
def rights_after (b : Board) (m : BitMove) : Player → CastleType → Bool :=
  fun q side =>
    b.castle_rights q side && m.src ≠ rel_sq q 4 && m.src ≠ castling_rook_square q side &&
      m.dst ≠ castling_rook_square q side

/-- Modelled from the spec (4.2): `Board::apply_move` (`make_move`), which is
not among the sampled sources.  Piece boards, side to move, castling rights
and the en-passant target are updated; a double pawn push sets the en-passant
target to the square passed over, every other move clears it.  (Clocks and
the Zobrist hash, which no claim inspects, are omitted.) -/
def make_move (b : Board) (m : BitMove) : Board :=
  let p := b.turn
  let base : Player → Piece → BB := fun q r => ((b.pieces q r).erase m.src).erase m.dst
  match m.flag with
  | .DoublePawnPush =>
    { pieces := fun q r =>
        if q = p ∧ r = Piece.P then insert m.dst (base q r) else base q r
      turn := p.other
      castle_rights := rights_after b m
      ep := some (down p m.dst) }
  | .Capture true =>
    let capSq := down p m.dst
    { pieces := fun q r =>
        if q = p ∧ r = Piece.P then insert m.dst ((base q r).erase capSq)
        else (base q r).erase capSq
      turn := p.other
      castle_rights := rights_after b m
      ep := none }
  | .Castle ks =>
    let k_to := rel_sq p (if ks then 6 else 2)
    let r_to := rel_sq p (if ks then 5 else 3)
    { pieces := fun q r =>
        if q = p ∧ r = Piece.K then insert k_to (base q r)
        else if q = p ∧ r = Piece.R then insert r_to (base q r)
        else base q r
      turn := p.other
      castle_rights := rights_after b m
      ep := none }
  | .Promotion _ pr =>
    { pieces := fun q r =>
        if q = p ∧ r = pr then insert m.dst (base q r) else base q r
      turn := p.other
      castle_rights := rights_after b m
      ep := none }
  | _ =>
    let mover := (piece_at_sq b m.src).getD Piece.K
    { pieces := fun q r =>
        if q = p ∧ r = mover then insert m.dst (base q r) else base q r
      turn := p.other
      castle_rights := rights_after b m
      ep := none }

/-- The standard chess starting position. -/
def start_board : Board where
  pieces := fun p pc =>
    match p, pc with
    | .White, .P => {8, 9, 10, 11, 12, 13, 14, 15}
    | .White, .N => {1, 6}
    | .White, .B => {2, 5}
    | .White, .R => {0, 7}
    | .White, .Q => {3}
    | .White, .K => {4}
    | .Black, .P => {48, 49, 50, 51, 52, 53, 54, 55}
    | .Black, .N => {57, 62}
    | .Black, .B => {58, 61}
    | .Black, .R => {56, 63}
    | .Black, .Q => {59}
    | .Black, .K => {60}
  turn := .White
  castle_rights := fun _ _ => true
  ep := none

/-- Positions reachable from the start by applying generated legal moves
(`unmake_move` restores the previous position exactly, so it adds no new
positions). -/
inductive Reachable : Board → Prop where
  | start : Reachable start_board
  | step : ∀ b m, Reachable b → m ∈ generate false .All b → legal_move b m = true →
      Reachable (make_move b m)

/-!  The engine coordinator, `pleco_engine/src/threadpool/mod.rs`, embedded
with explicit state passing: spawned OS threads become counters/handle lists,
the mpsc channel becomes a queue of pending messages, and the `LockLatch`
condition variables become booleans.  `Limits`/`PreLimits` and `RootMove`
are modelled from the spec (sections 3 and 6). -/

/-- Modelled from the spec (section 6): UCI-style search limits as received. -/
structure PreLimits where
  depth : Option Nat
  nodes : Option Nat
  movetime : Option Nat
  wtime : Option Nat
  btime : Option Nat
  winc : Option Nat
  binc : Option Nat
  movestogo : Option Nat
  infinite : Bool
deriving DecidableEq, Repr

/-- Modelled from the spec: the created `Limits` carry the same fields. -/
structure Limits where
  depth : Option Nat
  nodes : Option Nat
  movetime : Option Nat
  wtime : Option Nat
  btime : Option Nat
  winc : Option Nat
  binc : Option Nat
  movestogo : Option Nat
  infinite : Bool
deriving DecidableEq, Repr

/-- Modelled from the spec: `PreLimits::create` converts the received limits
into the internal `Limits`. -/
def PreLimits.create (l : PreLimits) : Limits :=
  { depth := l.depth, nodes := l.nodes, movetime := l.movetime, wtime := l.wtime,
    btime := l.btime, winc := l.winc, binc := l.binc, movestogo := l.movestogo,
    infinite := l.infinite }

/-- Modelled from the spec (section 3): `Board::shallow_clone` copies the
piece boards and scalars; on the model it is the identity copy. -/
def shallow_clone (b : Board) : Board := b

/-- Modelled from the spec (section 3): a root move with its scores. -/
structure RootMove where
  bit_move : BitMove
  score : Int
  prev_score : Int

/-- `ThreadGo`: the data published to the searching threads. -/
structure ThreadGo where
  limit : Limits
  board : Board

/-- `SendData`: messages from the main thread to the pool owner. -/
inductive SendData where
  | BestMove (rm : RootMove)

/-- The `ThreadPool` state: the published position slot, the root-move
manager's thread count, the main-thread handle, the channel receiver (a queue
of pending messages), the two latches, the helper-thread handles and the
stdout flag. -/
structure ThreadPool where
  pos_state : Option ThreadGo
  rm_size : Nat
  main_thread : Bool
  receiver : List SendData
  main_thread_go : Bool
  threads : List Nat
  all_thread_go : Bool
  use_stdout : Bool

/-- The loop of `ThreadPool::add_threads`: while `i < num`, register a
root-move list (growing the manager) and spawn a helper thread. -/
def add_threads_loop (tp : ThreadPool) (num i : Nat) : ThreadPool :=
  if i < num then
    add_threads_loop
      { tp with rm_size := tp.rm_size + 1, threads := tp.threads ++ [i] } num (i + 1)
  else tp
termination_by num - i
decreasing_by omega

/-- `ThreadPool::add_threads`. -/
def add_threads (tp : ThreadPool) (num : Nat) : ThreadPool :=
  add_threads_loop tp num tp.rm_size

/-- The loop of `ThreadPool::remove_threads`: while `i > num`, unregister the
latest root-move list and join the newest helper thread. -/
def remove_threads_loop (tp : ThreadPool) (num i : Nat) : ThreadPool :=
  if num < i then
    remove_threads_loop
      { tp with rm_size := tp.rm_size - 1, threads := tp.threads.dropLast } num (i - 1)
  else tp
termination_by i - num
decreasing_by omega

/-- `ThreadPool::remove_threads`. -/
def remove_threads (tp : ThreadPool) (num : Nat) : ThreadPool :=
  remove_threads_loop tp num tp.rm_size

/-- `ThreadPool::set_thread_count`: nothing happens for `num = 0`; otherwise
grow or shrink towards `num`. -/
def set_thread_count (tp : ThreadPool) (num : Nat) : ThreadPool :=
  if num > 0 then
    if num > tp.rm_size then add_threads tp num
    else if num < tp.rm_size then remove_threads tp num
    else tp
  else tp

/-- `ThreadPool::uci_search`: publish the shallow-cloned board and created
limits into the shared slot, then release the main-thread latch; returns
without touching the channel. -/
def uci_search (tp : ThreadPool) (board : Board) (limits : PreLimits) : ThreadPool :=
  { tp with
    pos_state := some { board := shallow_clone board, limit := limits.create }
    main_thread_go := true }

/-- `ThreadPool::get_move`: block on the channel; on receiving
`SendData::BestMove(rm)` return `rm.bit_move`.  A `recv` with no message ever
arriving blocks forever, modelled as `none`. -/
def get_move (tp : ThreadPool) : Option (BitMove × ThreadPool) :=
  match tp.receiver with
  | SendData.BestMove rm :: rest => some (rm.bit_move, { tp with receiver := rest })
  | [] => none

/-- `ThreadPool::search`: `uci_search` then a blocking `get_move`. -/
def ThreadPool.search (tp : ThreadPool) (board : Board) (limits : PreLimits) :
    Option (BitMove × ThreadPool) :=
  get_move (uci_search tp board limits)

/-!  `BestMove` from `src/bots/mod.rs`.  Scores are 16-bit signed integers,
modelled as integers in `[-2^15, 2^15)`. -/

/-- Two's-complement wrapping negation of an `i16` value. -/
def i16_wrapping_neg (x : Int) : Int := ((-x + 32768) % 65536) - 32768

/-- `BestMove` of `src/bots/mod.rs`. -/
structure BestMove where
  best_move : Option BitMove
  score : Int
deriving DecidableEq, Repr

/-- `BestMove::new`. -/
def BestMove.new (score : Int) : BestMove := { best_move := none, score := score }

/-- `BestMove::negate`: replace the score by its wrapping negation, keeping
the move. -/
def BestMove.negate (bm : BestMove) : BestMove :=
  { bm with score := i16_wrapping_neg bm.score }

/-! ### Claim C8: `BestMove::negate` -/

/-- Claim C8: `BestMove::negate` leaves `best_move` unchanged and replaces
the score with its two's-complement wrapping negation, hence it is an
involution on 16-bit scores and maps the minimal score to itself. -/
theorem c8_negate_involution (bm : BestMove) (h1 : -32768 ≤ bm.score)
    (h2 : bm.score < 32768) :
    bm.negate.best_move = bm.best_move ∧
      bm.negate.score = i16_wrapping_neg bm.score ∧
      bm.negate.negate = bm ∧
      (bm.score = -32768 → bm.negate.score = -32768) := by
  obtain ⟨mv, s⟩ := bm
  have hs1 : -32768 ≤ s := h1
  have hs2 : s < 32768 := h2
  refine ⟨rfl, rfl, ?_, ?_⟩
  · show BestMove.mk mv (i16_wrapping_neg (i16_wrapping_neg s)) = BestMove.mk mv s
    have : i16_wrapping_neg (i16_wrapping_neg s) = s := by
      simp only [i16_wrapping_neg]
      omega
    rw [this]
  · intro hs
    have hs3 : s = -32768 := hs
    show i16_wrapping_neg s = -32768
    simp only [i16_wrapping_neg]
    omega

/-- Witness for C8 at the concrete value `BestMove::new(5)`. -/
theorem c8_negate_involution_witness :
    -32768 ≤ (BestMove.new 5).score ∧ (BestMove.new 5).score < 32768 ∧
      ((BestMove.new 5).negate.best_move = (BestMove.new 5).best_move ∧
        (BestMove.new 5).negate.score = i16_wrapping_neg (BestMove.new 5).score ∧
        (BestMove.new 5).negate.negate = BestMove.new 5 ∧
        ((BestMove.new 5).score = -32768 → (BestMove.new 5).negate.score = -32768)) :=
  ⟨by decide, by decide, c8_negate_involution (BestMove.new 5) (by decide) (by decide)⟩

/-! ### Claim C9: `ThreadPool::set_thread_count` -/

/-- The add loop drives the registered count up to `num`. -/
theorem add_threads_loop_spec :
    ∀ (k : Nat) (tp : ThreadPool) (num i : Nat), num - i = k → tp.rm_size = i →
      i ≤ num →
      (add_threads_loop tp num i).rm_size = num ∧
        (add_threads_loop tp num i).threads.length = tp.threads.length + (num - i) := by
  intro k
  induction k with
  | zero =>
    intro tp num i hk hrm hle
    have hni : ¬ i < num := by omega
    rw [add_threads_loop]
    simp [hni]
    omega
  | succ n ih =>
    intro tp num i hk hrm hle
    have hlt : i < num := by omega
    rw [add_threads_loop]
    simp only [hlt, if_pos]
    have h2 := ih { tp with rm_size := tp.rm_size + 1, threads := tp.threads ++ [i] }
      num (i + 1) (by omega) (by simp [hrm]) (by omega)
    simp at h2
    refine ⟨h2.1, ?_⟩
    rw [h2.2]
    omega

/-- The remove loop drives the registered count down to `num`. -/
theorem remove_threads_loop_spec :
    ∀ (k : Nat) (tp : ThreadPool) (num i : Nat), i - num = k → tp.rm_size = i →
      1 ≤ num → num ≤ i → tp.threads.length + 1 = i →
      (remove_threads_loop tp num i).rm_size = num ∧
        (remove_threads_loop tp num i).threads.length + 1 = num := by
  intro k
  induction k with
  | zero =>
    intro tp num i hk hrm h1 hle hth
    have hni : ¬ num < i := by omega
    rw [remove_threads_loop]
    simp [hni]
    omega
  | succ n ih =>
    intro tp num i hk hrm h1 hle hth
    have hlt : num < i := by omega
    rw [remove_threads_loop]
    simp only [hlt, if_pos]
    exact ih { tp with rm_size := tp.rm_size - 1, threads := tp.threads.dropLast }
      num (i - 1) (by omega) (by simp [hrm]) h1 (by omega)
      (by
        simp [List.length_dropLast]
        omega)

/-- Claim C9: `set_thread_count(0)` leaves the pool unchanged; for `n ≥ 1`
the pool's registered thread count becomes exactly `n` (with `n - 1` helper
threads beside the main thread). -/
theorem c9_set_thread_count (tp : ThreadPool) (num : Nat) (h1 : 1 ≤ num)
    (h2 : tp.threads.length + 1 = tp.rm_size) :
    set_thread_count tp 0 = tp ∧
      (set_thread_count tp num).rm_size = num ∧
      (set_thread_count tp num).threads.length + 1 = num := by
  refine ⟨rfl, ?_⟩
  unfold set_thread_count
  have hpos : num > 0 := h1
  simp only [hpos, if_pos]
  rcases Nat.lt_trichotomy tp.rm_size num with hlt | heq | hgt
  · simp only [hlt, if_pos]
    have := add_threads_loop_spec (num - tp.rm_size) tp num tp.rm_size rfl rfl (by omega)
    unfold add_threads
    refine ⟨this.1, ?_⟩
    rw [this.2]
    omega
  · simp [heq]
    omega
  · have hnlt : ¬ tp.rm_size < num := by omega
    simp only [hnlt, if_neg, hgt, if_pos, not_false_iff]
    have := remove_threads_loop_spec (tp.rm_size - num) tp num tp.rm_size rfl rfl
      h1 (by omega) h2
    unfold remove_threads
    exact this

/-- Witness for C9 at a concrete pool (main thread only) grown to 3. -/
theorem c9_set_thread_count_witness :
    (1 ≤ 3 ∧
        (ThreadPool.mk none 1 true [] false [] false false).threads.length + 1 =
          (ThreadPool.mk none 1 true [] false [] false false).rm_size) ∧
      (set_thread_count (ThreadPool.mk none 1 true [] false [] false false) 0 =
          ThreadPool.mk none 1 true [] false [] false false ∧
        (set_thread_count (ThreadPool.mk none 1 true [] false [] false false) 3).rm_size = 3 ∧
        (set_thread_count
              (ThreadPool.mk none 1 true [] false [] false false) 3).threads.length + 1 = 3) :=
  ⟨⟨by decide, by decide⟩,
    c9_set_thread_count (ThreadPool.mk none 1 true [] false [] false false) 3
      (by decide) (by decide)⟩

/-! ### Claim C7: `ThreadPool::search` and `ThreadPool::uci_search` -/

/-- Claim C7: `search` publishes the shallow-cloned board and created limits
in the shared slot, releases the main-thread latch, then blocks on the
channel and returns the `BitMove` of the received best `RootMove`;
`uci_search` performs the same publication and latch release but does not
touch the channel. -/
theorem c7_search_spec (tp : ThreadPool) (b : Board) (lim : PreLimits) (rm : RootMove)
    (rest : List SendData) (h : tp.receiver = SendData.BestMove rm :: rest) :
    (uci_search tp b lim).pos_state =
        some { board := shallow_clone b, limit := lim.create } ∧
      (uci_search tp b lim).main_thread_go = true ∧
      (uci_search tp b lim).receiver = tp.receiver ∧
      (uci_search tp b lim).rm_size = tp.rm_size ∧
      (uci_search tp b lim).threads = tp.threads ∧
      ThreadPool.search tp b lim =
        some (rm.bit_move, { uci_search tp b lim with receiver := rest }) := by
  refine ⟨rfl, rfl, rfl, rfl, rfl, ?_⟩
  simp only [ThreadPool.search, get_move, uci_search, h]

/-- Witness for C7 at a concrete pool with one pending message. -/
theorem c7_search_spec_witness :
    (ThreadPool.mk none 1 true [SendData.BestMove ⟨⟨12, 28, .DoublePawnPush⟩, 0, 0⟩]
          false [] false false).receiver =
        SendData.BestMove ⟨⟨12, 28, .DoublePawnPush⟩, 0, 0⟩ :: [] ∧
      ThreadPool.search
          (ThreadPool.mk none 1 true [SendData.BestMove ⟨⟨12, 28, .DoublePawnPush⟩, 0, 0⟩]
            false [] false false) start_board
          (PreLimits.mk none none none none none none none none true) =
        some (⟨12, 28, .DoublePawnPush⟩,
          { uci_search
              (ThreadPool.mk none 1 true [SendData.BestMove ⟨⟨12, 28, .DoublePawnPush⟩, 0, 0⟩]
                false [] false false) start_board
              (PreLimits.mk none none none none none none none none true) with
            receiver := [] }) :=
  ⟨rfl,
    (c7_search_spec _ start_board (PreLimits.mk none none none none none none none none true)
        ⟨⟨12, 28, .DoublePawnPush⟩, 0, 0⟩ [] rfl).2.2.2.2.2⟩

/-! ### Claim C1: legal generation = pseudo-legal generation filtered by
`legal_move`.  Every append goes through `check_and_add`, so the legal list
of each generation routine is the `legal_move`-filter of its pseudo-legal
list. -/

/-- `check_and_add` in legal mode filters by `legal_move`. -/
theorem check_and_add_filter (b : Board) (m : BitMove) :
    check_and_add true b m = (check_and_add false b m).filter (legal_move b) := by
  simp only [check_and_add, if_true, List.filter]
  cases h : legal_move b m <;> simp [h]

/-- Filtering distributes over `flatMap` when it distributes pointwise. -/
theorem flatMap_filter_of {α : Type} (l : List α) (f g : α → List BitMove)
    (p : BitMove → Bool) (h : ∀ a, f a = (g a).filter p) :
    l.flatMap f = (l.flatMap g).filter p := by
  induction l with
  | nil => rfl
  | cons x xs ih =>
    simp only [List.flatMap_cons, List.filter_append, h, ih]

theorem mafb_filter (b : Board) (bits : BB) (src : Square) (flag : MoveFlag) :
    move_append_from_bb true b bits src flag =
      (move_append_from_bb false b bits src flag).filter (legal_move b) :=
  flatMap_filter_of _ _ _ _ fun dst => check_and_add_filter b ⟨src, dst, flag⟩

theorem mpp_filter (p : Player) (b : Board) (pc : Piece) (target : BB) :
    moves_per_piece true p b pc target =
      (moves_per_piece false p b pc target).filter (legal_move b) :=
  flatMap_filter_of _ _ _ _ fun src => by
    simp only [mafb_filter, List.filter_append]

theorem promos_filter (b : Board) (dst src : Square) (is_capture : Bool) :
    create_all_promotions true b dst src is_capture =
      (create_all_promotions false b dst src is_capture).filter (legal_move b) :=
  flatMap_filter_of _ _ _ _ fun pc =>
    check_and_add_filter b ⟨src, dst, .Promotion is_capture pc⟩

theorem pawn_pushes_filter (gt : GenTypes) (p : Player) (b : Board) (target : BB) :
    pawn_pushes true gt p b target =
      (pawn_pushes false gt p b target).filter (legal_move b) := by
  unfold pawn_pushes
  split
  · rw [List.filter_append,
      flatMap_filter_of _ _ _ (legal_move b) fun dst =>
        check_and_add_filter b ⟨down p dst, dst, .QuietMove⟩,
      flatMap_filter_of _ _ _ (legal_move b) fun dst =>
        check_and_add_filter b ⟨down p (down p dst), dst, .DoublePawnPush⟩]
  · rfl

theorem pawn_promos_filter (gt : GenTypes) (p : Player) (b : Board) (target : BB) :
    pawn_promos true gt p b target =
      (pawn_promos false gt p b target).filter (legal_move b) := by
  unfold pawn_promos
  split
  · rw [List.filter_append, List.filter_append,
      flatMap_filter_of _ _ _ (legal_move b) fun dst => promos_filter b dst (down p dst) false,
      flatMap_filter_of _ _ _ (legal_move b) fun dst =>
        promos_filter b dst (down_right p dst) true,
      flatMap_filter_of _ _ _ (legal_move b) fun dst =>
        promos_filter b dst (down_left p dst) true]
  · rfl

theorem pawn_ep_filter (gt : GenTypes) (p : Player) (b : Board) (target : BB) :
    pawn_ep_moves true gt p b target =
      (pawn_ep_moves false gt p b target).filter (legal_move b) := by
  unfold pawn_ep_moves
  split
  · split
    · exact flatMap_filter_of _ _ _ _ fun src =>
        check_and_add_filter b ⟨src, _, .Capture true⟩
    · rfl
  · rfl

theorem pawn_caps_filter (gt : GenTypes) (p : Player) (b : Board) (target : BB) :
    pawn_caps true gt p b target =
      (pawn_caps false gt p b target).filter (legal_move b) := by
  unfold pawn_caps
  split
  · rw [List.filter_append, List.filter_append,
      flatMap_filter_of _ _ _ (legal_move b) fun dst =>
        check_and_add_filter b ⟨down_right p dst, dst, .Capture false⟩,
      flatMap_filter_of _ _ _ (legal_move b) fun dst =>
        check_and_add_filter b ⟨down_left p dst, dst, .Capture false⟩,
      pawn_ep_filter]
  · rfl

theorem gen_pawn_filter (gt : GenTypes) (p : Player) (b : Board) (target : BB) :
    generate_pawn_moves true gt p b target =
      (generate_pawn_moves false gt p b target).filter (legal_move b) := by
  unfold generate_pawn_moves
  rw [List.filter_append, List.filter_append, pawn_pushes_filter, pawn_promos_filter,
    pawn_caps_filter]

theorem gen_king_filter (p : Player) (b : Board) (target : BB) :
    generate_king_moves true p b target =
      (generate_king_moves false p b target).filter (legal_move b) :=
  mpp_filter p b .K target

theorem castling_side_filter (p : Player) (side : CastleType) (b : Board) :
    castling_side true p side b = (castling_side false p side b).filter (legal_move b) := by
  unfold castling_side
  split
  · dsimp only
    split <;> split
    · exact check_and_add_filter b _
    · rfl
    · exact check_and_add_filter b _
    · rfl
  · rfl

theorem gen_castling_filter (p : Player) (b : Board) :
    generate_castling true p b = (generate_castling false p b).filter (legal_move b) := by
  unfold generate_castling
  rw [List.filter_append, castling_side_filter, castling_side_filter]

theorem gen_all_filter (gt : GenTypes) (p : Player) (b : Board) (target : BB) :
    generate_all true gt p b target =
      (generate_all false gt p b target).filter (legal_move b) := by
  unfold generate_all
  rw [List.filter_append, List.filter_append, List.filter_append, List.filter_append,
    List.filter_append, List.filter_append, gen_pawn_filter, mpp_filter, mpp_filter,
    mpp_filter, mpp_filter]
  congr 5
  · split
    · exact gen_king_filter p b target
    · rfl
  · split
    · exact gen_castling_filter p b
    · rfl

theorem qc_dc_filter (p : Player) (b : Board) :
    qc_dc_moves true p b = (qc_dc_moves false p b).filter (legal_move b) :=
  flatMap_filter_of _ _ _ _ fun sq => by
    simp only
    split
    · exact mafb_filter b _ sq .QuietMove
    · rfl

theorem gen_qc_filter (p : Player) (b : Board) :
    generate_quiet_checks true p b =
      (generate_quiet_checks false p b).filter (legal_move b) := by
  unfold generate_quiet_checks
  rw [List.filter_append, qc_dc_filter, gen_all_filter]

theorem gen_ev_filter (p : Player) (b : Board) :
    generate_evasions true p b = (generate_evasions false p b).filter (legal_move b) := by
  unfold generate_evasions
  dsimp only
  rw [List.filter_append, List.filter_append, mafb_filter, mafb_filter]
  congr 2
  split
  · exact gen_all_filter .Evasions p b _
  · rfl

theorem gen_ne_filter (gt : GenTypes) (p : Player) (b : Board) :
    generate_non_evasions true gt p b =
      (generate_non_evasions false gt p b).filter (legal_move b) := by
  unfold generate_non_evasions
  exact gen_all_filter gt p b _

theorem generate_filter (gt : GenTypes) (b : Board) :
    generate true gt b = (generate false gt b).filter (legal_move b) := by
  unfold generate generate_helper
  split
  · exact gen_ev_filter b.turn b
  · split
    · exact gen_qc_filter b.turn b
    · split
      · split
        · exact gen_ev_filter b.turn b
        · exact gen_ne_filter .NonEvasions b.turn b
      · exact gen_ne_filter gt b.turn b

/-- Claim C1: for every board and generation type, the legal move list is the
pseudo-legal move list filtered by `Board::legal_move`; a move is appended in
legal mode iff it is appended in pseudo-legal mode and `legal_move` holds. -/
theorem c1_legal_is_filtered_pseudolegal (gt : GenTypes) (b : Board) :
    generate true gt b = (generate false gt b).filter (legal_move b) ∧
      ∀ m : BitMove,
        m ∈ generate true gt b ↔ m ∈ generate false gt b ∧ legal_move b m = true := by
  refine ⟨generate_filter gt b, fun m => ?_⟩
  rw [generate_filter gt b]
  simp [List.mem_filter]

/-! ### Claim C3: `QuietChecks` moves should all give check.
The source restricts pawn pushes to checking squares but runs
`moves_per_piece` for knights, bishops, rooks and queens with the plain
empty-square target, without intersecting the squares from which the piece
would check the enemy king — so non-checking quiet moves are emitted. -/

/-- A check-free position: White Ke1, Nb1; Black Kh8. -/
def c3_board : Board where
  pieces := fun p pc =>
    match p, pc with
    | .White, .N => {1}
    | .White, .K => {4}
    | .Black, .K => {63}
    | _, _ => ∅
  turn := .White
  castle_rights := fun _ _ => false
  ep := none

/-- Claim C3 (refuted by the code): on the check-free board
[White Ke1, Nb1; Black Kh8] the generator's `QuietChecks` list contains the
legal quiet knight move b1-a3, yet after applying it the side to move
(Black) is not in check. -/
theorem c3_quiet_check_gives_no_check :
    in_check c3_board = false ∧
      (⟨1, 16, .QuietMove⟩ : BitMove) ∈ generate false .QuietChecks c3_board ∧
      legal_move c3_board ⟨1, 16, .QuietMove⟩ = true ∧
      (make_move c3_board ⟨1, 16, .QuietMove⟩).turn = Player.Black ∧
      in_check (make_move c3_board ⟨1, 16, .QuietMove⟩) = false := by
  refine ⟨by decide, by decide, by decide, rfl, by decide⟩

/-! ### Membership lemmas for the generator's building blocks -/

theorem mem_bb_list (bb : BB) (s : Square) : s ∈ bb_list bb ↔ s ∈ bb := by
  simp [bb_list, List.mem_filter, List.mem_finRange]

theorem us_union_them (b : Board) : us_occ b ∪ them_occ b = get_occupied b := by
  cases h : b.turn <;>
    simp [us_occ, them_occ, get_occupied, h, Player.other, Finset.union_comm]

/-- Elimination: `check_and_add` only ever yields the move it was given. -/
theorem mem_cad {L : Bool} {b : Board} {m m' : BitMove}
    (h : m' ∈ check_and_add L b m) : m' = m := by
  cases L
  · simpa [check_and_add] using h
  · simp only [check_and_add, if_true] at h
    split at h
    · simpa using h
    · simp at h

/-- In pseudo-legal mode `check_and_add` is exactly the singleton. -/
theorem mem_cad_false {b : Board} {m m' : BitMove} :
    m' ∈ check_and_add false b m ↔ m' = m := by
  simp [check_and_add]

theorem mem_mafb {L : Bool} {b : Board} {bits : BB} {src : Square} {flag : MoveFlag}
    {m : BitMove} (h : m ∈ move_append_from_bb L b bits src flag) :
    m.src = src ∧ m.dst ∈ bits ∧ m.flag = flag := by
  simp only [move_append_from_bb, List.mem_flatMap] at h
  obtain ⟨dst, hdst, hm⟩ := h
  rw [mem_cad hm]
  exact ⟨rfl, (mem_bb_list bits dst).1 hdst, rfl⟩

theorem mem_mafb_false {b : Board} {bits : BB} {src : Square} {flag : MoveFlag}
    {m : BitMove} :
    m ∈ move_append_from_bb false b bits src flag ↔
      m.src = src ∧ m.dst ∈ bits ∧ m.flag = flag := by
  constructor
  · exact mem_mafb
  · rintro ⟨h1, h2, h3⟩
    simp only [move_append_from_bb, List.mem_flatMap]
    exact ⟨m.dst, (mem_bb_list bits m.dst).2 h2, by
      rw [mem_cad_false]
      cases m
      simp_all⟩

theorem mem_mpp_false {p : Player} {b : Board} {pc : Piece} {target : BB} {m : BitMove} :
    m ∈ moves_per_piece false p b pc target ↔
      m.src ∈ b.pieces p pc ∧
        ((m.flag = .Capture false ∧
            m.dst ∈ moves_bb b pc m.src ∩ (us_occ b)ᶜ ∩ target ∩ them_occ b) ∨
          (m.flag = .QuietMove ∧
            m.dst ∈ moves_bb b pc m.src ∩ (us_occ b)ᶜ ∩ target ∩ (them_occ b)ᶜ)) := by
  simp only [moves_per_piece, List.mem_flatMap, List.mem_append, mem_mafb_false,
    mem_bb_list]
  constructor
  · rintro ⟨src, hsrc, h | h⟩
    · exact ⟨h.1 ▸ hsrc, Or.inl ⟨h.2.2, h.1 ▸ h.2.1⟩⟩
    · exact ⟨h.1 ▸ hsrc, Or.inr ⟨h.2.2, h.1 ▸ h.2.1⟩⟩
  · rintro ⟨hsrc, ⟨hf, hd⟩ | ⟨hf, hd⟩⟩
    · exact ⟨m.src, hsrc, Or.inl ⟨rfl, hd, hf⟩⟩
    · exact ⟨m.src, hsrc, Or.inr ⟨rfl, hd, hf⟩⟩

theorem mem_cap_false {b : Board} {dst src : Square} {c : Bool} {m : BitMove} :
    m ∈ create_all_promotions false b dst src c ↔
      ∃ pr, pr ∈ [Piece.Q, Piece.N, Piece.R, Piece.B] ∧
        m = ⟨src, dst, .Promotion c pr⟩ := by
  simp only [create_all_promotions, List.mem_flatMap, mem_cad_false]

theorem mem_pawn_pushes_false {gt : GenTypes} {p : Player} {b : Board} {target : BB}
    {m : BitMove} (hgt : gt ≠ .Captures) :
    m ∈ pawn_pushes false gt p b target ↔
      (∃ dst ∈ push_one_fin gt p b target, m = ⟨down p dst, dst, .QuietMove⟩) ∨
        (∃ dst ∈ push_two_fin gt p b target,
          m = ⟨down p (down p dst), dst, .DoublePawnPush⟩) := by
  unfold pawn_pushes
  rw [if_pos hgt]
  simp only [List.mem_append, List.mem_flatMap, mem_cad_false, mem_bb_list]

theorem pawn_pushes_captures {L : Bool} {p : Player} {b : Board} {target : BB} :
    pawn_pushes L .Captures p b target = [] := by
  simp [pawn_pushes]

theorem mem_pawn_promos_false {gt : GenTypes} {p : Player} {b : Board} {target : BB}
    {m : BitMove}
    (hcond : (pawns_on_7 p b).Nonempty ∧
      (gt ≠ .Evasions ∨ (target ∩ pawn_rank_8 p).Nonempty)) :
    m ∈ pawn_promos false gt p b target ↔
      (∃ dst ∈ shift_up p (pawns_on_7 p b) ∩ promo_empty gt b target,
          ∃ pr, pr ∈ [Piece.Q, Piece.N, Piece.R, Piece.B] ∧
            m = ⟨down p dst, dst, .Promotion false pr⟩) ∨
        (∃ dst ∈ shift_up_left p (pawns_on_7 p b) ∩ pawn_enemies gt b target,
          ∃ pr, pr ∈ [Piece.Q, Piece.N, Piece.R, Piece.B] ∧
            m = ⟨down_right p dst, dst, .Promotion true pr⟩) ∨
        (∃ dst ∈ shift_up_right p (pawns_on_7 p b) ∩ pawn_enemies gt b target,
          ∃ pr, pr ∈ [Piece.Q, Piece.N, Piece.R, Piece.B] ∧
            m = ⟨down_left p dst, dst, .Promotion true pr⟩) := by
  unfold pawn_promos
  rw [if_pos hcond]
  simp only [List.mem_append, List.mem_flatMap, mem_cap_false, mem_bb_list]
  rw [or_assoc]

theorem pawn_promos_skip {L : Bool} {gt : GenTypes} {p : Player} {b : Board} {target : BB}
    (hcond : ¬ ((pawns_on_7 p b).Nonempty ∧
      (gt ≠ .Evasions ∨ (target ∩ pawn_rank_8 p).Nonempty))) :
    pawn_promos L gt p b target = [] := by
  unfold pawn_promos
  rw [if_neg hcond]

theorem mem_pawn_ep_false {gt : GenTypes} {p : Player} {b : Board} {target : BB}
    {m : BitMove} {e : Square} (hep : b.ep = some e)
    (hcond : gt ≠ .Evasions ∨ (target ∩ {down p e}).Nonempty) :
    m ∈ pawn_ep_moves false gt p b target ↔
      ∃ src ∈ pawns_not_7 p b ∩ pawn_attacks_from e p.other,
        m = ⟨src, e, .Capture true⟩ := by
  unfold pawn_ep_moves
  rw [hep]
  dsimp only
  rw [if_pos hcond]
  simp only [List.mem_flatMap, mem_cad_false, mem_bb_list]

/-- Elimination in any mode: an en-passant move's destination is the board's
en-passant square and its flag is the en-passant capture flag. -/
theorem mem_pawn_ep_elim {L : Bool} {gt : GenTypes} {p : Player} {b : Board} {target : BB}
    {m : BitMove} (h : m ∈ pawn_ep_moves L gt p b target) :
    b.ep = some m.dst ∧ m.flag = .Capture true := by
  unfold pawn_ep_moves at h
  split at h
  · rename_i e heq
    split at h
    · simp only [List.mem_flatMap] at h
      obtain ⟨src, hsrc, hm⟩ := h
      rw [mem_cad hm]
      exact ⟨heq, rfl⟩
    · simp at h
  · simp at h

theorem mem_pawn_caps_false {gt : GenTypes} {p : Player} {b : Board} {target : BB}
    {m : BitMove}
    (hgt : gt = .Captures ∨ gt = .Evasions ∨ gt = .NonEvasions ∨ gt = .All) :
    m ∈ pawn_caps false gt p b target ↔
      (∃ dst ∈ shift_up_left p (pawns_not_7 p b) ∩ pawn_enemies gt b target,
          m = ⟨down_right p dst, dst, .Capture false⟩) ∨
        (∃ dst ∈ shift_up_right p (pawns_not_7 p b) ∩ pawn_enemies gt b target,
          m = ⟨down_left p dst, dst, .Capture false⟩) ∨
        m ∈ pawn_ep_moves false gt p b target := by
  unfold pawn_caps
  rw [if_pos hgt]
  simp only [List.mem_append, List.mem_flatMap, mem_cad_false, mem_bb_list]
  rw [or_assoc]

theorem pawn_caps_skip {L : Bool} {gt : GenTypes} {p : Player} {b : Board} {target : BB}
    (hgt : ¬ (gt = .Captures ∨ gt = .Evasions ∨ gt = .NonEvasions ∨ gt = .All)) :
    pawn_caps L gt p b target = [] := by
  unfold pawn_caps
  rw [if_neg hgt]

/-! ### Containment lemmas for the pawn-push bitboards -/

theorem push_one_pre_sub (gt : GenTypes) (p : Player) (b : Board) (target : BB) :
    push_one_pre gt p b target ⊆ pawn_empty gt b target :=
  Finset.inter_subset_left

theorem push_two_pre_sub (gt : GenTypes) (p : Player) (b : Board) (target : BB) :
    push_two_pre gt p b target ⊆ pawn_empty gt b target :=
  Finset.inter_subset_right

theorem push_one_ev_sub (gt : GenTypes) (p : Player) (b : Board) (target : BB) :
    push_one_ev gt p b target ⊆ push_one_pre gt p b target := by
  unfold push_one_ev
  split
  · exact Finset.inter_subset_left
  · exact Finset.Subset.refl _

theorem push_two_ev_sub (gt : GenTypes) (p : Player) (b : Board) (target : BB) :
    push_two_ev gt p b target ⊆ push_two_pre gt p b target := by
  unfold push_two_ev
  split
  · exact Finset.inter_subset_left
  · exact Finset.Subset.refl _

theorem push_dc1_sub (gt : GenTypes) (p : Player) (b : Board) (target : BB) :
    push_dc1 gt p b target ⊆ pawn_empty gt b target :=
  Finset.inter_subset_left.trans Finset.inter_subset_right

theorem push_dc2_sub (gt : GenTypes) (p : Player) (b : Board) (target : BB) :
    push_dc2 gt p b target ⊆ pawn_empty gt b target :=
  Finset.inter_subset_right

theorem push_one_fin_sub (gt : GenTypes) (p : Player) (b : Board) (target : BB) :
    push_one_fin gt p b target ⊆ pawn_empty gt b target := by
  unfold push_one_fin
  split
  · refine Finset.union_subset ?_ ?_
    · exact Finset.inter_subset_left.trans
        ((push_one_ev_sub gt p b target).trans (push_one_pre_sub gt p b target))
    · split
      · exact push_dc1_sub gt p b target
      · exact Finset.empty_subset _
  · exact (push_one_ev_sub gt p b target).trans (push_one_pre_sub gt p b target)

theorem push_two_fin_sub (gt : GenTypes) (p : Player) (b : Board) (target : BB) :
    push_two_fin gt p b target ⊆ pawn_empty gt b target := by
  unfold push_two_fin
  split
  · refine Finset.union_subset ?_ ?_
    · exact Finset.inter_subset_left.trans
        ((push_two_ev_sub gt p b target).trans (push_two_pre_sub gt p b target))
    · split
      · exact push_dc2_sub gt p b target
      · exact Finset.empty_subset _
  · exact (push_two_ev_sub gt p b target).trans (push_two_pre_sub gt p b target)

theorem pawn_empty_sub (gt : GenTypes) (b : Board) (target : BB)
    (hQ : gt = .Quiets ∨ gt = .QuietChecks → target ⊆ (get_occupied b)ᶜ) :
    pawn_empty gt b target ⊆ (get_occupied b)ᶜ := by
  unfold pawn_empty
  split
  · exact hQ (by assumption)
  · exact Finset.Subset.refl _

theorem pawn_enemies_sub (gt : GenTypes) (b : Board) (target : BB)
    (hC : gt = .Captures → target ⊆ them_occ b) :
    pawn_enemies gt b target ⊆ them_occ b := by
  unfold pawn_enemies
  split
  · exact Finset.inter_subset_left
  · split
    · exact hC (by assumption)
    · exact Finset.Subset.refl _

/-! ### Claim C10: flags match destination occupancy -/

/-- The claimed relation between a move's flag and its destination at
generation time. -/
def flag_dst_ok (b : Board) (m : BitMove) : Prop :=
  (m.flag = .Capture false → m.dst ∈ them_occ b) ∧
    (m.flag = .QuietMove → m.dst ∉ get_occupied b) ∧
    (m.flag = .Capture true → b.ep = some m.dst)

theorem flag_dst_ok_of_capture {b : Board} {m : BitMove}
    (hf : m.flag = .Capture false) (hd : m.dst ∈ them_occ b) : flag_dst_ok b m := by
  refine ⟨fun _ => hd, fun h => ?_, fun h => ?_⟩ <;> rw [hf] at h <;> cases h

theorem flag_dst_ok_of_quiet {b : Board} {m : BitMove}
    (hf : m.flag = .QuietMove) (hd : m.dst ∉ get_occupied b) : flag_dst_ok b m := by
  refine ⟨fun h => ?_, fun _ => hd, fun h => ?_⟩ <;> rw [hf] at h <;> cases h

theorem flag_dst_ok_of_ep {b : Board} {m : BitMove}
    (hf : m.flag = .Capture true) (hd : b.ep = some m.dst) : flag_dst_ok b m := by
  refine ⟨fun h => ?_, fun h => ?_, fun _ => hd⟩ <;> rw [hf] at h <;> cases h

theorem flag_dst_ok_of_dpp {b : Board} {m : BitMove}
    (hf : m.flag = .DoublePawnPush) : flag_dst_ok b m := by
  refine ⟨fun h => ?_, fun h => ?_, fun h => ?_⟩ <;> rw [hf] at h <;> cases h

theorem flag_dst_ok_of_promo {b : Board} {m : BitMove} {c : Bool} {pr : Piece}
    (hf : m.flag = .Promotion c pr) : flag_dst_ok b m := by
  refine ⟨fun h => ?_, fun h => ?_, fun h => ?_⟩ <;> rw [hf] at h <;> cases h

theorem flag_dst_ok_of_castle {b : Board} {m : BitMove} {ks : Bool}
    (hf : m.flag = .Castle ks) : flag_dst_ok b m := by
  refine ⟨fun h => ?_, fun h => ?_, fun h => ?_⟩ <;> rw [hf] at h <;> cases h

/-- Elimination: `castling_side` yields only the single castle move with the
king's square as source and the rook's square as destination. -/
theorem mem_castling_side_elim {L : Bool} {p : Player} {side : CastleType} {b : Board}
    {m : BitMove} (h : m ∈ castling_side L p side b) :
    m = ⟨king_sq b p, castling_rook_square p side,
      .Castle (side = CastleType.KingSide)⟩ := by
  unfold castling_side at h
  split at h
  · dsimp only at h
    split at h <;> split at h
    · exact mem_cad h
    · cases h
    · exact mem_cad h
    · cases h
  · cases h

theorem quiet_dst_not_occ {b : Board} {d : Square}
    (h1 : d ∈ (us_occ b)ᶜ) (h2 : d ∈ (them_occ b)ᶜ) : d ∉ get_occupied b := by
  rw [← us_union_them b]
  intro hc
  rcases Finset.mem_union.1 hc with hc | hc
  · exact (Finset.mem_compl.1 h1) hc
  · exact (Finset.mem_compl.1 h2) hc

theorem c10_mpp {p : Player} {b : Board} {pc : Piece} {target : BB} {m : BitMove}
    (h : m ∈ moves_per_piece false p b pc target) : flag_dst_ok b m := by
  rw [mem_mpp_false] at h
  rcases h.2 with ⟨hf, hd⟩ | ⟨hf, hd⟩
  · exact flag_dst_ok_of_capture hf (Finset.mem_inter.1 hd).2
  · refine flag_dst_ok_of_quiet hf (quiet_dst_not_occ ?_ (Finset.mem_inter.1 hd).2)
    have := (Finset.mem_inter.1 (Finset.mem_inter.1 (Finset.mem_inter.1 hd).1).1).2
    exact this

theorem c10_pushes {gt : GenTypes} {p : Player} {b : Board} {target : BB} {m : BitMove}
    (hQ : gt = .Quiets ∨ gt = .QuietChecks → target ⊆ (get_occupied b)ᶜ)
    (h : m ∈ pawn_pushes false gt p b target) : flag_dst_ok b m := by
  by_cases hgt : gt = .Captures
  · subst hgt
    rw [pawn_pushes_captures] at h
    cases h
  rcases (mem_pawn_pushes_false hgt).1 h with ⟨dst, hdst, rfl⟩ | ⟨dst, hdst, rfl⟩
  · refine flag_dst_ok_of_quiet rfl ?_
    have : dst ∈ (get_occupied b)ᶜ :=
      pawn_empty_sub gt b target hQ (push_one_fin_sub gt p b target hdst)
    exact Finset.mem_compl.1 this
  · exact flag_dst_ok_of_dpp rfl

theorem c10_promos {gt : GenTypes} {p : Player} {b : Board} {target : BB} {m : BitMove}
    (h : m ∈ pawn_promos false gt p b target) : flag_dst_ok b m := by
  by_cases hcond : (pawns_on_7 p b).Nonempty ∧
      (gt ≠ .Evasions ∨ (target ∩ pawn_rank_8 p).Nonempty)
  · rcases (mem_pawn_promos_false hcond).1 h with ⟨d, _, pr, _, rfl⟩ | ⟨d, _, pr, _, rfl⟩ |
      ⟨d, _, pr, _, rfl⟩ <;> exact flag_dst_ok_of_promo rfl
  · rw [pawn_promos_skip hcond] at h
    cases h

theorem c10_caps {gt : GenTypes} {p : Player} {b : Board} {target : BB} {m : BitMove}
    (hC : gt = .Captures → target ⊆ them_occ b)
    (h : m ∈ pawn_caps false gt p b target) : flag_dst_ok b m := by
  by_cases hgt : gt = .Captures ∨ gt = .Evasions ∨ gt = .NonEvasions ∨ gt = .All
  · rcases (mem_pawn_caps_false hgt).1 h with ⟨dst, hdst, rfl⟩ | ⟨dst, hdst, rfl⟩ | hm
    · exact flag_dst_ok_of_capture rfl
        (pawn_enemies_sub gt b target hC (Finset.mem_inter.1 hdst).2)
    · exact flag_dst_ok_of_capture rfl
        (pawn_enemies_sub gt b target hC (Finset.mem_inter.1 hdst).2)
    · obtain ⟨hep, hf⟩ := mem_pawn_ep_elim hm
      exact flag_dst_ok_of_ep hf hep
  · rw [pawn_caps_skip hgt] at h
    cases h

theorem c10_castling {L : Bool} {p : Player} {b : Board} {m : BitMove}
    (h : m ∈ generate_castling L p b) : flag_dst_ok b m := by
  rcases List.mem_append.1 h with h | h <;>
    exact flag_dst_ok_of_castle (by rw [mem_castling_side_elim h])

theorem c10_qc_dc {p : Player} {b : Board} {m : BitMove}
    (h : m ∈ qc_dc_moves false p b) : flag_dst_ok b m := by
  unfold qc_dc_moves at h
  simp only [List.mem_flatMap] at h
  obtain ⟨sq, hsq, hm⟩ := h
  split at hm
  · obtain ⟨h1, h2, h3⟩ := mem_mafb hm
    refine flag_dst_ok_of_quiet h3 ?_
    revert h2
    split
    · intro h2
      exact Finset.mem_compl.1 ((Finset.mem_inter.1 (Finset.mem_inter.1 h2).1).2)
    · intro h2
      exact Finset.mem_compl.1 ((Finset.mem_inter.1 h2).2)
  · cases hm

theorem c10_generate_all {gt : GenTypes} {p : Player} {b : Board} {target : BB}
    {m : BitMove}
    (hQ : gt = .Quiets ∨ gt = .QuietChecks → target ⊆ (get_occupied b)ᶜ)
    (hC : gt = .Captures → target ⊆ them_occ b)
    (h : m ∈ generate_all false gt p b target) : flag_dst_ok b m := by
  unfold generate_all generate_pawn_moves at h
  simp only [List.mem_append] at h
  rcases h with (((((((hp | hp) | hp) | hn) | hb) | hr) | hq) | hk) | hc
  · exact c10_pushes hQ hp
  · exact c10_promos hp
  · exact c10_caps hC hp
  · exact c10_mpp hn
  · exact c10_mpp hb
  · exact c10_mpp hr
  · exact c10_mpp hq
  · revert hk
    split
    · exact fun hk => c10_mpp hk
    · intro hk
      cases hk
  · revert hc
    split
    · exact fun hc => c10_castling hc
    · intro hc
      cases hc

theorem c10_evasions {p : Player} {b : Board} {m : BitMove}
    (h : m ∈ generate_evasions false p b) : flag_dst_ok b m := by
  unfold generate_evasions at h
  dsimp only at h
  simp only [List.mem_append] at h
  rcases h with (hk | hk) | hg
  · obtain ⟨h1, h2, h3⟩ := mem_mafb hk
    exact flag_dst_ok_of_capture h3 (Finset.mem_inter.1 h2).2
  · obtain ⟨h1, h2, h3⟩ := mem_mafb hk
    refine flag_dst_ok_of_quiet h3 (quiet_dst_not_occ ?_ (Finset.mem_inter.1 h2).2)
    exact (Finset.mem_inter.1 (Finset.mem_inter.1 h2).1).2
  · revert hg
    split
    · exact fun hg => c10_generate_all (fun hc => by cases hc with
        | inl h => cases h
        | inr h => cases h) (fun hc => by cases hc) hg
    · intro hg
      cases hg

theorem c10_quiet_checks {p : Player} {b : Board} {m : BitMove}
    (h : m ∈ generate_quiet_checks false p b) : flag_dst_ok b m := by
  unfold generate_quiet_checks at h
  rcases List.mem_append.1 h with hd | hg
  · exact c10_qc_dc hd
  · exact c10_generate_all (fun _ => Finset.Subset.refl _) (fun hc => by cases hc) hg

theorem c10_non_evasions {gt : GenTypes} {p : Player} {b : Board} {m : BitMove}
    (h : m ∈ generate_non_evasions false gt p b) : flag_dst_ok b m := by
  unfold generate_non_evasions at h
  cases gt <;> dsimp only at h
  · exact c10_generate_all (fun hq => by rcases hq with hq | hq <;> cases hq)
      (fun hc => by cases hc) h
  · exact c10_generate_all (fun hq => by rcases hq with hq | hq <;> cases hq)
      (fun _ => Finset.Subset.refl _) h
  · exact c10_generate_all
      (fun _ => by rw [us_union_them b]) (fun hc => by cases hc) h
  · exact c10_generate_all (fun _ => Finset.empty_subset _) (fun hc => by cases hc) h
  · exact c10_generate_all (fun hq => by rcases hq with hq | hq <;> cases hq)
      (fun hc => by cases hc) h
  · exact c10_generate_all (fun hq => by rcases hq with hq | hq <;> cases hq)
      (fun hc => by cases hc) h

/-- Claim C10: in every generated move list, a `Capture{ep_capture: false}`
move lands on an opponent-occupied square, a `QuietMove` lands on an empty
square, and a `Capture{ep_capture: true}` move's destination is the board's
en-passant square. -/
theorem c10_flags_match_destinations (L : Bool) (gt : GenTypes) (b : Board) (m : BitMove)
    (hm : m ∈ generate L gt b) :
    (m.flag = .Capture false → m.dst ∈ them_occ b) ∧
      (m.flag = .QuietMove → m.dst ∉ get_occupied b) ∧
      (m.flag = .Capture true → b.ep = some m.dst) := by
  have hm0 : m ∈ generate false gt b := by
    cases L
    · exact hm
    · rw [generate_filter gt b] at hm
      exact List.mem_of_mem_filter hm
  unfold generate generate_helper at hm0
  have : flag_dst_ok b m := by
    split at hm0
    · exact c10_evasions hm0
    · split at hm0
      · exact c10_quiet_checks hm0
      · split at hm0
        · split at hm0
          · exact c10_evasions hm0
          · exact c10_non_evasions hm0
        · exact c10_non_evasions hm0
  exact this

/-- Witness for C10: the quiet start-position move e2-e3 lands on an empty
square, and its flag is not a capture flag. -/
theorem c10_flags_match_destinations_witness :
    (⟨12, 20, .QuietMove⟩ : BitMove) ∈ generate false .All start_board ∧
      (((⟨12, 20, .QuietMove⟩ : BitMove).flag = .Capture false →
          (⟨12, 20, .QuietMove⟩ : BitMove).dst ∈ them_occ start_board) ∧
        ((⟨12, 20, .QuietMove⟩ : BitMove).flag = .QuietMove →
          (⟨12, 20, .QuietMove⟩ : BitMove).dst ∉ get_occupied start_board) ∧
        ((⟨12, 20, .QuietMove⟩ : BitMove).flag = .Capture true →
          start_board.ep = some (⟨12, 20, .QuietMove⟩ : BitMove).dst)) :=
  ⟨by decide, c10_flags_match_destinations false .All start_board _ (by decide)⟩


/-! ### Claim C2: `gen(All) = gen(Captures) ∪ gen(Quiets)` on check-free
positions.  The union holds; disjointness fails, because the promotion block
of `generate_pawn_moves` runs for `Captures` (with quiet promotions over
`!occ`) and for `Quiets` (with capture promotions over `them_occ`) alike, so
every promotion move appears in both lists. -/

theorem tq_eq_occ_compl (b : Board) :
    ((us_occ b ∪ them_occ b)ᶜ : BB) = (get_occupied b)ᶜ := by
  rw [us_union_them]

theorem c2_pushes_eq (L : Bool) (p : Player) (b : Board) :
    pawn_pushes L .Quiets p b ((us_occ b ∪ them_occ b)ᶜ) =
      pawn_pushes L .NonEvasions p b ((us_occ b)ᶜ) := by
  rw [tq_eq_occ_compl]
  exact rfl

theorem c2_promos_eq_c (L : Bool) (p : Player) (b : Board) :
    pawn_promos L .Captures p b (them_occ b) =
      pawn_promos L .NonEvasions p b ((us_occ b)ᶜ) := by
  unfold pawn_promos
  by_cases hp7 : (pawns_on_7 p b).Nonempty
  · rw [if_pos ⟨hp7, Or.inl (by decide)⟩, if_pos ⟨hp7, Or.inl (by decide)⟩]
    exact rfl
  · rw [if_neg (fun hc => hp7 hc.1), if_neg (fun hc => hp7 hc.1)]

theorem c2_promos_eq_q (L : Bool) (p : Player) (b : Board) :
    pawn_promos L .Quiets p b ((us_occ b ∪ them_occ b)ᶜ) =
      pawn_promos L .NonEvasions p b ((us_occ b)ᶜ) := by
  rw [tq_eq_occ_compl]
  unfold pawn_promos
  by_cases hp7 : (pawns_on_7 p b).Nonempty
  · rw [if_pos ⟨hp7, Or.inl (by decide)⟩, if_pos ⟨hp7, Or.inl (by decide)⟩]
    exact rfl
  · rw [if_neg (fun hc => hp7 hc.1), if_neg (fun hc => hp7 hc.1)]

theorem c2_caps_eq (L : Bool) (p : Player) (b : Board) :
    pawn_caps L .Captures p b (them_occ b) =
      pawn_caps L .NonEvasions p b ((us_occ b)ᶜ) := rfl

/-- Membership in `moves_per_piece` with the NonEvasions target splits into
the Captures-target and Quiets-target lists. -/
theorem c2_mpp_iff (p : Player) (b : Board) (pc : Piece) (m : BitMove) :
    m ∈ moves_per_piece false p b pc ((us_occ b)ᶜ) ↔
      (m ∈ moves_per_piece false p b pc (them_occ b) ∨
        m ∈ moves_per_piece false p b pc ((us_occ b ∪ them_occ b)ᶜ)) := by
  rw [mem_mpp_false, mem_mpp_false, mem_mpp_false]
  simp only [Finset.mem_inter, Finset.mem_compl, Finset.mem_union]
  itauto

theorem c2_mpp_capture_flag {p : Player} {b : Board} {pc : Piece} {m : BitMove}
    (h : m ∈ moves_per_piece false p b pc (them_occ b)) : m.flag = .Capture false := by
  rw [mem_mpp_false] at h
  rcases h.2 with ⟨hf, _⟩ | ⟨hf, hd⟩
  · exact hf
  · exfalso
    simp only [Finset.mem_inter, Finset.mem_compl] at hd
    itauto

theorem c2_mpp_quiet_flag {p : Player} {b : Board} {pc : Piece} {m : BitMove}
    (h : m ∈ moves_per_piece false p b pc ((us_occ b ∪ them_occ b)ᶜ)) :
    m.flag = .QuietMove := by
  rw [mem_mpp_false] at h
  rcases h.2 with ⟨hf, hd⟩ | ⟨hf, _⟩
  · exfalso
    simp only [Finset.mem_inter, Finset.mem_compl, Finset.mem_union] at hd
    itauto
  · exact hf

theorem gen_all_not_check_eq (L : Bool) (b : Board) (hck : in_check b = false) :
    generate L .All b = generate_all L .NonEvasions b.turn b ((us_occ b)ᶜ) := by
  unfold generate generate_helper generate_non_evasions
  simp [hck]

theorem gen_captures_eq (L : Bool) (b : Board) :
    generate L .Captures b = generate_all L .Captures b.turn b (them_occ b) := rfl

theorem gen_quiets_eq (L : Bool) (b : Board) :
    generate L .Quiets b = generate_all L .Quiets b.turn b ((us_occ b ∪ them_occ b)ᶜ) :=
  rfl

/-- Propositional reshuffling behind the union law. -/
theorem or_shuffle_c2 (A B C N1 N2 B1 B2 R1 R2 Q1 Q2 K1 K2 Cs : Prop) :
    (((((((A ∨ B) ∨ C) ∨ (N1 ∨ N2)) ∨ (B1 ∨ B2)) ∨ (R1 ∨ R2)) ∨ (Q1 ∨ Q2)) ∨ (K1 ∨ K2)) ∨
        Cs ↔
      ((((((B ∨ C) ∨ N1) ∨ B1) ∨ R1) ∨ Q1) ∨ K1) ∨
        ((((((A ∨ B) ∨ N2) ∨ B2) ∨ R2) ∨ Q2) ∨ K2) ∨ Cs := by
  tauto

/-- The union law for `generate_all`, one move at a time. -/
theorem c2_genall_union (p : Player) (b : Board) (m : BitMove) :
    m ∈ generate_all false .NonEvasions p b ((us_occ b)ᶜ) ↔
      m ∈ generate_all false .Captures p b (them_occ b) ∨
        m ∈ generate_all false .Quiets p b ((us_occ b ∪ them_occ b)ᶜ) := by
  unfold generate_all
  rw [if_pos (show GenTypes.NonEvasions ≠ GenTypes.QuietChecks ∧
        GenTypes.NonEvasions ≠ GenTypes.Evasions by decide),
    if_pos (show GenTypes.NonEvasions ≠ GenTypes.Captures ∧
        GenTypes.NonEvasions ≠ GenTypes.Evasions by decide),
    if_pos (show GenTypes.Captures ≠ GenTypes.QuietChecks ∧
        GenTypes.Captures ≠ GenTypes.Evasions by decide),
    if_neg (show ¬ (GenTypes.Captures ≠ GenTypes.Captures ∧
        GenTypes.Captures ≠ GenTypes.Evasions) from fun hc => hc.1 rfl),
    if_pos (show GenTypes.Quiets ≠ GenTypes.QuietChecks ∧
        GenTypes.Quiets ≠ GenTypes.Evasions by decide),
    if_pos (show GenTypes.Quiets ≠ GenTypes.Captures ∧
        GenTypes.Quiets ≠ GenTypes.Evasions by decide)]
  unfold generate_pawn_moves
  rw [pawn_pushes_captures,
    pawn_caps_skip (show ¬ (GenTypes.Quiets = GenTypes.Captures ∨
      GenTypes.Quiets = GenTypes.Evasions ∨ GenTypes.Quiets = GenTypes.NonEvasions ∨
      GenTypes.Quiets = GenTypes.All) by decide),
    c2_pushes_eq, c2_promos_eq_c, c2_promos_eq_q, c2_caps_eq]
  unfold generate_king_moves
  simp only [List.mem_append, List.append_nil, List.nil_append, List.not_mem_nil,
    false_or, or_false]
  rw [c2_mpp_iff p b .N m, c2_mpp_iff p b .B m, c2_mpp_iff p b .R m,
    c2_mpp_iff p b .Q m, c2_mpp_iff p b .K m]
  exact or_shuffle_c2 _ _ _ _ _ _ _ _ _ _ _ _ _ _

/-- The union law at the pseudo-legal level, one move at a time. -/
theorem c2_mem_union (b : Board) (hck : in_check b = false) (m : BitMove) :
    m ∈ generate false .All b ↔
      m ∈ generate false .Captures b ∨ m ∈ generate false .Quiets b := by
  rw [gen_all_not_check_eq false b hck, gen_captures_eq, gen_quiets_eq]
  exact c2_genall_union b.turn b m

theorem c2_flags_captures {b : Board} {m : BitMove}
    (h : m ∈ generate false .Captures b) :
    m.flag = .Capture false ∨ m.flag = .Capture true ∨
      ∃ c pr, m.flag = .Promotion c pr := by
  rw [gen_captures_eq] at h
  unfold generate_all generate_pawn_moves at h
  simp only [List.mem_append, pawn_pushes_captures, List.not_mem_nil, false_or,
    if_pos (show GenTypes.Captures ≠ GenTypes.QuietChecks ∧
      GenTypes.Captures ≠ GenTypes.Evasions by decide),
    if_neg (show ¬ (GenTypes.Captures ≠ GenTypes.Captures ∧
      GenTypes.Captures ≠ GenTypes.Evasions) from fun hc => hc.1 rfl),
    or_false] at h
  rcases h with (((((hp | hp) | hn) | hb) | hr) | hq) | hk
  · by_cases hcond : (pawns_on_7 b.turn b).Nonempty ∧
        (GenTypes.Captures ≠ .Evasions ∨ ((them_occ b) ∩ pawn_rank_8 b.turn).Nonempty)
    · rcases (mem_pawn_promos_false hcond).1 hp with ⟨d, _, pr, _, rfl⟩ |
        ⟨d, _, pr, _, rfl⟩ | ⟨d, _, pr, _, rfl⟩ <;> exact Or.inr (Or.inr ⟨_, _, rfl⟩)
    · rw [pawn_promos_skip hcond] at hp
      cases hp
  · rcases (mem_pawn_caps_false (by decide)).1 hp with ⟨d, _, rfl⟩ | ⟨d, _, rfl⟩ | hp
    · exact Or.inl rfl
    · exact Or.inl rfl
    · exact Or.inr (Or.inl (mem_pawn_ep_elim hp).2)
  · exact Or.inl (c2_mpp_capture_flag hn)
  · exact Or.inl (c2_mpp_capture_flag hb)
  · exact Or.inl (c2_mpp_capture_flag hr)
  · exact Or.inl (c2_mpp_capture_flag hq)
  · exact Or.inl (c2_mpp_capture_flag hk)

theorem c2_flags_quiets {b : Board} {m : BitMove}
    (h : m ∈ generate false .Quiets b) :
    m.flag = .QuietMove ∨ m.flag = .DoublePawnPush ∨ (∃ ks, m.flag = .Castle ks) ∨
      ∃ c pr, m.flag = .Promotion c pr := by
  rw [gen_quiets_eq] at h
  unfold generate_all generate_pawn_moves at h
  simp only [List.mem_append,
    pawn_caps_skip (show ¬ (GenTypes.Quiets = GenTypes.Captures ∨
      GenTypes.Quiets = GenTypes.Evasions ∨ GenTypes.Quiets = GenTypes.NonEvasions ∨
      GenTypes.Quiets = GenTypes.All) by decide),
    List.not_mem_nil, false_or, or_false,
    if_pos (show GenTypes.Quiets ≠ GenTypes.QuietChecks ∧
      GenTypes.Quiets ≠ GenTypes.Evasions by decide),
    if_pos (show GenTypes.Quiets ≠ GenTypes.Captures ∧
      GenTypes.Quiets ≠ GenTypes.Evasions by decide)] at h
  rcases h with ((((((hp | hp) | hn) | hb) | hr) | hq) | hk) | hc
  · rcases (mem_pawn_pushes_false (by decide)).1 hp with ⟨d, _, rfl⟩ | ⟨d, _, rfl⟩
    · exact Or.inl rfl
    · exact Or.inr (Or.inl rfl)
  · by_cases hcond : (pawns_on_7 b.turn b).Nonempty ∧
        (GenTypes.Quiets ≠ .Evasions ∨
          (((us_occ b ∪ them_occ b)ᶜ : BB) ∩ pawn_rank_8 b.turn).Nonempty)
    · rcases (mem_pawn_promos_false hcond).1 hp with ⟨d, _, pr, _, rfl⟩ |
        ⟨d, _, pr, _, rfl⟩ | ⟨d, _, pr, _, rfl⟩ <;>
        exact Or.inr (Or.inr (Or.inr ⟨_, _, rfl⟩))
    · rw [pawn_promos_skip hcond] at hp
      cases hp
  · exact Or.inl (c2_mpp_quiet_flag hn)
  · exact Or.inl (c2_mpp_quiet_flag hb)
  · exact Or.inl (c2_mpp_quiet_flag hr)
  · exact Or.inl (c2_mpp_quiet_flag hq)
  · exact Or.inl (c2_mpp_quiet_flag hk)
  · rcases List.mem_append.1 hc with hc | hc <;>
      exact Or.inr (Or.inr (Or.inl ⟨_, by rw [mem_castling_side_elim hc]⟩))

/-- A position with a promotion available: White Ke1, Pa7; Black Kh8. -/
def c2_board : Board where
  pieces := fun p pc =>
    match p, pc with
    | .White, .P => {48}
    | .White, .K => {4}
    | .Black, .K => {63}
    | _, _ => ∅
  turn := .White
  castle_rights := fun _ _ => false
  ep := none

/-- Counterexample for C2 as stated: the position is not in check, yet the
quiet promotion a7-a8=Q is generated both by `Captures` and by `Quiets`, so
the two lists are not disjoint. -/
theorem c2_disjointness_fails :
    in_check c2_board = false ∧
      (⟨48, 56, .Promotion false .Q⟩ : BitMove) ∈ generate false .Captures c2_board ∧
      (⟨48, 56, .Promotion false .Q⟩ : BitMove) ∈ generate false .Quiets c2_board ∧
      ((generate false .Captures c2_board).toFinset ∩
          (generate false .Quiets c2_board).toFinset).Nonempty := by
  refine ⟨by decide, by decide, by decide, ⟨⟨48, 56, .Promotion false .Q⟩, ?_⟩⟩
  rw [Finset.mem_inter, List.mem_toFinset, List.mem_toFinset]
  exact ⟨by decide, by decide⟩

/-- Claim C2, amended: on a check-free position `gen(All)` equals
`gen(Captures) ∪ gen(Quiets)` as sets (in both legality modes), but the two
lists are not disjoint in general: a move lying in both is always a
promotion move. -/
theorem c2_union_and_promotion_overlap (L : Bool) (b : Board)
    (hck : in_check b = false) :
    (generate L .All b).toFinset =
        (generate L .Captures b).toFinset ∪ (generate L .Quiets b).toFinset ∧
      ∀ m : BitMove, m ∈ generate L .Captures b → m ∈ generate L .Quiets b →
        ∃ c pr, m.flag = .Promotion c pr := by
  have hmem : ∀ m : BitMove, m ∈ generate false .All b ↔
      m ∈ generate false .Captures b ∨ m ∈ generate false .Quiets b :=
    c2_mem_union b hck
  have hmemL : ∀ m : BitMove, m ∈ generate L .All b ↔
      m ∈ generate L .Captures b ∨ m ∈ generate L .Quiets b := by
    cases L
    · exact hmem
    · intro m
      rw [generate_filter .All b, generate_filter .Captures b, generate_filter .Quiets b]
      simp only [List.mem_filter]
      constructor
      · rintro ⟨hm, hl⟩
        rcases (hmem m).1 hm with h | h
        · exact Or.inl ⟨h, hl⟩
        · exact Or.inr ⟨h, hl⟩
      · rintro (⟨hm, hl⟩ | ⟨hm, hl⟩)
        · exact ⟨(hmem m).2 (Or.inl hm), hl⟩
        · exact ⟨(hmem m).2 (Or.inr hm), hl⟩
  constructor
  · ext m
    rw [Finset.mem_union, List.mem_toFinset, List.mem_toFinset, List.mem_toFinset]
    exact hmemL m
  · intro m hc hq
    have hc0 : m ∈ generate false .Captures b := by
      cases L
      · exact hc
      · rw [generate_filter .Captures b] at hc
        exact List.mem_of_mem_filter hc
    have hq0 : m ∈ generate false .Quiets b := by
      cases L
      · exact hq
      · rw [generate_filter .Quiets b] at hq
        exact List.mem_of_mem_filter hq
    rcases c2_flags_captures hc0 with hf | hf | hf
    · rcases c2_flags_quiets hq0 with hg | hg | ⟨ks, hg⟩ | hg
      · rw [hf] at hg
        cases hg
      · rw [hf] at hg
        cases hg
      · rw [hf] at hg
        cases hg
      · exact hg
    · rcases c2_flags_quiets hq0 with hg | hg | ⟨ks, hg⟩ | hg
      · rw [hf] at hg
        cases hg
      · rw [hf] at hg
        cases hg
      · rw [hf] at hg
        cases hg
      · exact hg
    · exact hf

/-- Witness for the amended C2 on the concrete promotion board. -/
theorem c2_union_and_promotion_overlap_witness :
    in_check c2_board = false ∧
      ((generate false .All c2_board).toFinset =
          (generate false .Captures c2_board).toFinset ∪
            (generate false .Quiets c2_board).toFinset ∧
        ∀ m : BitMove, m ∈ generate false .Captures c2_board →
          m ∈ generate false .Quiets c2_board → ∃ c pr, m.flag = .Promotion c pr) :=
  ⟨by decide, c2_union_and_promotion_overlap false c2_board (by decide)⟩


/-! ### Claim C5: evasion generation.  With several checkers only king moves
are generated; with one checker the non-king moves land on
`between(king, checker) ∪ {checker}` — except the en-passant capture, whose
destination is the en-passant square while the captured pawn's square lies in
the target. -/

/-- En-passant elimination in Evasions mode: the board has the en-passant
square set, the flag is the en-passant flag, and the captured pawn's square
meets the target. -/
theorem mem_pawn_ep_elim_ev {p : Player} {b : Board} {target : BB} {m : BitMove}
    (h : m ∈ pawn_ep_moves false .Evasions p b target) :
    b.ep = some m.dst ∧ m.flag = .Capture true ∧
      (target ∩ {down p m.dst}).Nonempty := by
  unfold pawn_ep_moves at h
  split at h
  · rename_i e heq
    split at h
    · rename_i hcond
      simp only [List.mem_flatMap] at h
      obtain ⟨src, hsrc, hm⟩ := h
      rw [mem_cad hm]
      rcases hcond with hc | hc
      · exact absurd rfl hc
      · exact ⟨heq, rfl, hc⟩
    · cases h
  · cases h

/-- Every move of `generate_all` in Evasions mode lands on the target, except
the en-passant capture, which lands on the en-passant square while the
captured pawn's square meets the target. -/
theorem c5_genall_target {p : Player} {b : Board} {target : BB} {m : BitMove}
    (h : m ∈ generate_all false .Evasions p b target) :
    (m.flag ≠ .Capture true → m.dst ∈ target) ∧
      (m.flag = .Capture true → b.ep = some m.dst ∧
        (target ∩ {down p m.dst}).Nonempty) := by
  unfold generate_all generate_pawn_moves at h
  rw [if_neg (show ¬ (GenTypes.Evasions ≠ GenTypes.QuietChecks ∧
        GenTypes.Evasions ≠ GenTypes.Evasions) from fun hc => hc.2 rfl),
    if_neg (show ¬ (GenTypes.Evasions ≠ GenTypes.Captures ∧
        GenTypes.Evasions ≠ GenTypes.Evasions) from fun hc => hc.2 rfl)] at h
  simp only [List.mem_append, List.append_nil] at h
  have hmpp : ∀ pc : Piece, m ∈ moves_per_piece false p b pc target →
      m.dst ∈ target := by
    intro pc hm
    rw [mem_mpp_false] at hm
    rcases hm.2 with ⟨_, hd⟩ | ⟨_, hd⟩
    · exact (Finset.mem_inter.1 (Finset.mem_inter.1 hd).1).2
    · exact (Finset.mem_inter.1 (Finset.mem_inter.1 hd).1).2
  have henemies : ∀ d, d ∈ pawn_enemies .Evasions b target → d ∈ target := by
    intro d hd
    unfold pawn_enemies at hd
    rw [if_pos rfl] at hd
    exact (Finset.mem_inter.1 hd).2
  rcases h with (((((hp | hp) | hp) | hn) | hb) | hr) | hq
  · rcases (mem_pawn_pushes_false (by decide)).1 hp with ⟨d, hd, rfl⟩ | ⟨d, hd, rfl⟩
    · refine ⟨fun _ => ?_, fun hf => by cases hf⟩
      have hde : d ∈ push_one_ev .Evasions p b target := by
        simpa [push_one_fin] using hd
      simpa [push_one_ev] using (Finset.mem_inter.1 (by simpa [push_one_ev] using hde :
        d ∈ push_one_pre .Evasions p b target ∩ target)).2
    · refine ⟨fun _ => ?_, fun hf => by cases hf⟩
      have hde : d ∈ push_two_ev .Evasions p b target := by
        simpa [push_two_fin] using hd
      simpa [push_two_ev] using (Finset.mem_inter.1 (by simpa [push_two_ev] using hde :
        d ∈ push_two_pre .Evasions p b target ∩ target)).2
  · by_cases hcond : (pawns_on_7 p b).Nonempty ∧
        (GenTypes.Evasions ≠ .Evasions ∨ (target ∩ pawn_rank_8 p).Nonempty)
    · rcases (mem_pawn_promos_false hcond).1 hp with ⟨d, hd, pr, _, rfl⟩ |
        ⟨d, hd, pr, _, rfl⟩ | ⟨d, hd, pr, _, rfl⟩
      · refine ⟨fun _ => ?_, fun hf => by cases hf⟩
        have := (Finset.mem_inter.1 hd).2
        unfold promo_empty at this
        rw [if_neg (show ¬ GenTypes.Evasions = GenTypes.Captures by decide),
          if_pos rfl] at this
        exact (Finset.mem_inter.1 this).2
      · exact ⟨fun _ => henemies _ (Finset.mem_inter.1 hd).2, fun hf => by cases hf⟩
      · exact ⟨fun _ => henemies _ (Finset.mem_inter.1 hd).2, fun hf => by cases hf⟩
    · rw [pawn_promos_skip hcond] at hp
      cases hp
  · rcases (mem_pawn_caps_false (by decide)).1 hp with ⟨d, hd, rfl⟩ | ⟨d, hd, rfl⟩ | hp
    · exact ⟨fun _ => henemies _ (Finset.mem_inter.1 hd).2, fun hf => by cases hf⟩
    · exact ⟨fun _ => henemies _ (Finset.mem_inter.1 hd).2, fun hf => by cases hf⟩
    · obtain ⟨hep, hf, hne⟩ := mem_pawn_ep_elim_ev hp
      exact ⟨fun hne2 => absurd hf hne2, fun _ => ⟨hep, hne⟩⟩
  · exact ⟨fun _ => hmpp .N hn, fun hf => by
      rw [mem_mpp_false] at hn
      rcases hn.2 with ⟨hg, _⟩ | ⟨hg, _⟩ <;> rw [hf] at hg <;> cases hg⟩
  · exact ⟨fun _ => hmpp .B hb, fun hf => by
      rw [mem_mpp_false] at hb
      rcases hb.2 with ⟨hg, _⟩ | ⟨hg, _⟩ <;> rw [hf] at hg <;> cases hg⟩
  · exact ⟨fun _ => hmpp .R hr, fun hf => by
      rw [mem_mpp_false] at hr
      rcases hr.2 with ⟨hg, _⟩ | ⟨hg, _⟩ <;> rw [hf] at hg <;> cases hg⟩
  · exact ⟨fun _ => hmpp .Q hq, fun hf => by
      rw [mem_mpp_false] at hq
      rcases hq.2 with ⟨hg, _⟩ | ⟨hg, _⟩ <;> rw [hf] at hg <;> cases hg⟩

/-- Claim C5 (amended): evasion generation.  The double-check part of the
claim holds; in the single-check case non-king moves land on the target
except the en-passant capture, which lands on the en-passant square while the
captured pawn's square lies in the target; king moves off the slider rays and
own pieces are included. -/
theorem c5_evasions_spec (L : Bool) (b : Board) (hck : in_check b = true) :
    (1 < (checkers b).card →
        ∀ m ∈ generate L .Evasions b,
          m.src = king_sq b b.turn ∧ m.dst ∈ evasion_k_moves b.turn b) ∧
      ((checkers b).card = 1 →
        ∀ m ∈ generate L .Evasions b, m.src ≠ king_sq b b.turn →
          (m.flag ≠ .Capture true → m.dst ∈ evasion_target b.turn b) ∧
            (m.flag = .Capture true → b.ep = some m.dst ∧
              (evasion_target b.turn b ∩ {down b.turn m.dst}).Nonempty)) ∧
      (∀ d ∈ evasion_k_moves b.turn b ∩ them_occ b,
        (⟨king_sq b b.turn, d, .Capture false⟩ : BitMove) ∈
          generate false .Evasions b) ∧
      (∀ d ∈ evasion_k_moves b.turn b ∩ (them_occ b)ᶜ,
        (⟨king_sq b b.turn, d, .QuietMove⟩ : BitMove) ∈
          generate false .Evasions b) := by
  have hgen : ∀ m : BitMove, m ∈ generate L .Evasions b →
      m ∈ generate_evasions false b.turn b := by
    intro m hm
    cases L
    · exact hm
    · rw [generate_filter .Evasions b] at hm
      exact List.mem_of_mem_filter hm
  refine ⟨?_, ?_, ?_, ?_⟩
  · intro hmult m hm
    have hm0 := hgen m hm
    unfold generate_evasions at hm0
    rw [if_neg (fun hc => hc hmult)] at hm0
    simp only [List.mem_append, List.not_mem_nil, or_false] at hm0
    rcases hm0 with hk | hk
    · obtain ⟨h1, h2, _⟩ := mem_mafb hk
      exact ⟨h1, (Finset.mem_inter.1 h2).1⟩
    · obtain ⟨h1, h2, _⟩ := mem_mafb hk
      exact ⟨h1, (Finset.mem_inter.1 h2).1⟩
  · intro hone m hm hsrc
    have hm0 := hgen m hm
    unfold generate_evasions at hm0
    simp only [List.mem_append] at hm0
    rcases hm0 with (hk | hk) | hg
    · exact absurd (mem_mafb hk).1 hsrc
    · exact absurd (mem_mafb hk).1 hsrc
    · revert hg
      split
      · intro hg
        exact c5_genall_target hg
      · intro hg
        cases hg
  · intro d hd
    show _ ∈ generate_evasions false b.turn b
    unfold generate_evasions
    simp only [List.mem_append]
    exact Or.inl (Or.inl (mem_mafb_false.2 ⟨rfl, hd, rfl⟩))
  · intro d hd
    show _ ∈ generate_evasions false b.turn b
    unfold generate_evasions
    simp only [List.mem_append]
    exact Or.inl (Or.inr (mem_mafb_false.2 ⟨rfl, hd, rfl⟩))


/-- An en-passant check-evasion position: White Ke4, Pe5; Black Kh8, Pd5
(just double-pushed, giving check); en-passant square d6, White to move. -/
def c5_board : Board where
  pieces := fun p pc =>
    match p, pc with
    | .White, .P => {36}
    | .White, .K => {28}
    | .Black, .P => {35}
    | .Black, .K => {63}
    | _, _ => ∅
  turn := .White
  castle_rights := fun _ _ => false
  ep := some 43

/-- Counterexample for C5 as stated: with exactly one checker (the pawn d5),
the generated evasion e5xd6 en passant is a non-king move whose destination
d6 is not in `between(king, checker) ∪ {checker}` = {d5}. -/
theorem c5_ep_evasion_off_target :
    in_check c5_board = true ∧ (checkers c5_board).card = 1 ∧
      (⟨36, 43, .Capture true⟩ : BitMove) ∈ generate false .Evasions c5_board ∧
      legal_move c5_board ⟨36, 43, .Capture true⟩ = true ∧
      (36 : Square) ≠ king_sq c5_board c5_board.turn ∧
      (43 : Square) ∉ evasion_target c5_board.turn c5_board := by
  exact ⟨by decide, by decide, by decide, by decide, by decide, by decide⟩

/-- Witness for the amended C5 on the concrete en-passant evasion board. -/
theorem c5_evasions_spec_witness :
    in_check c5_board = true ∧
      ((1 < (checkers c5_board).card →
          ∀ m ∈ generate false .Evasions c5_board,
            m.src = king_sq c5_board c5_board.turn ∧
              m.dst ∈ evasion_k_moves c5_board.turn c5_board) ∧
        ((checkers c5_board).card = 1 →
          ∀ m ∈ generate false .Evasions c5_board,
            m.src ≠ king_sq c5_board c5_board.turn →
            (m.flag ≠ .Capture true →
                m.dst ∈ evasion_target c5_board.turn c5_board) ∧
              (m.flag = .Capture true → c5_board.ep = some m.dst ∧
                (evasion_target c5_board.turn c5_board ∩
                    {down c5_board.turn m.dst}).Nonempty)) ∧
        (∀ d ∈ evasion_k_moves c5_board.turn c5_board ∩ them_occ c5_board,
          (⟨king_sq c5_board c5_board.turn, d, .Capture false⟩ : BitMove) ∈
            generate false .Evasions c5_board) ∧
        (∀ d ∈ evasion_k_moves c5_board.turn c5_board ∩ (them_occ c5_board)ᶜ,
          (⟨king_sq c5_board c5_board.turn, d, .QuietMove⟩ : BitMove) ∈
            generate false .Evasions c5_board)) :=
  ⟨by decide, c5_evasions_spec false c5_board (by decide)⟩


/-! ### Claim C4: castling generation.  `castling_side` walks the king's path
from its destination back towards (but excluding) the king's origin; the
origin square being safe is exactly the not-in-check precondition under which
castling generation runs. -/

/-- One unfolding step of the king-path walk. -/
theorem castle_path_ok_succ (b : Board) (ksq : Square) (df : Int) (n : Nat)
    (s : Square) :
    castle_path_ok b ksq df (n + 1) s =
      if s = ksq then true
      else if (attackers_to b s (get_occupied b) ∩ them_occ b).Nonempty then false
      else castle_path_ok b ksq df n ((offD s df 0).getD s) := rfl

/-- Evaluation of the two-square king-path walk. -/
theorem castle_walk2 (b : Board) (ksq s1 s2 : Square) (df : Int)
    (h1 : s1 ≠ ksq) (h2 : s2 ≠ ksq) (hstep1 : (offD s1 df 0).getD s1 = s2)
    (hstep2 : (offD s2 df 0).getD s2 = ksq) :
    castle_path_ok b ksq df 8 s1 = true ↔
      (attackers_to b s1 (get_occupied b) ∩ them_occ b = ∅ ∧
        attackers_to b s2 (get_occupied b) ∩ them_occ b = ∅) := by
  rw [show (8 : Nat) = 7 + 1 from rfl, castle_path_ok_succ, if_neg h1]
  by_cases ha1 : (attackers_to b s1 (get_occupied b) ∩ them_occ b).Nonempty
  · rw [if_pos ha1]
    constructor
    · intro hc
      cases hc
    · rintro ⟨he1, -⟩
      rw [he1] at ha1
      exact absurd ha1 (by simp)
  · rw [if_neg ha1, hstep1, show (7 : Nat) = 6 + 1 from rfl, castle_path_ok_succ,
      if_neg h2]
    by_cases ha2 : (attackers_to b s2 (get_occupied b) ∩ them_occ b).Nonempty
    · rw [if_pos ha2]
      constructor
      · intro hc
        cases hc
      · rintro ⟨-, he2⟩
        rw [he2] at ha2
        exact absurd ha2 (by simp)
    · rw [if_neg ha2, hstep2, show (6 : Nat) = 5 + 1 from rfl, castle_path_ok_succ,
        if_pos rfl]
      exact ⟨fun _ => ⟨Finset.not_nonempty_iff_eq_empty.1 ha1,
          Finset.not_nonempty_iff_eq_empty.1 ha2⟩,
        fun _ => rfl⟩

theorem ite_castle_true {α : Sort _} (a b : α) :
    (if CastleType.KingSide = CastleType.KingSide then a else b) = a := if_pos rfl

theorem ite_castle_false {α : Sort _} (a b : α) :
    (if CastleType.QueenSide = CastleType.KingSide then a else b) = b :=
  if_neg (by decide)

/-- The squares the king traverses when castling: origin, destination and the
squares between them. -/
def king_path (p : Player) (side : CastleType) : BB :=
  insert (rel_sq p 4)
    (insert (rel_sq p (if side = CastleType.KingSide then 6 else 2))
      (betweenBB (rel_sq p 4) (rel_sq p (if side = CastleType.KingSide then 6 else 2))))

/-- Claim C4: on a position that is not in check (the precondition of every
generation path that reaches castling) and whose king and castling rook stand
on their original squares whenever the right is present (spec invariant 5),
the castle move is generated iff the castling right is present, the squares
between king and rook are empty, and no square the king traverses — origin
and destination included — is attacked by the opponent. -/
theorem c4_castling_iff (b : Board) (side : CastleType)
    (hck : in_check b = false)
    (hinv : can_castle b b.turn side = true →
      king_sq b b.turn = rel_sq b.turn 4 ∧
        piece_at_sq b (castling_rook_square b.turn side) = some Piece.R) :
    ((⟨king_sq b b.turn, castling_rook_square b.turn side,
        MoveFlag.Castle (decide (side = CastleType.KingSide))⟩ : BitMove) ∈
        castling_side false b.turn side b) ↔
      (can_castle b b.turn side = true ∧
        betweenBB (king_sq b b.turn) (castling_rook_square b.turn side) ∩
            get_occupied b = ∅ ∧
        ∀ s ∈ king_path b.turn side,
          attackers_to b s (get_occupied b) ∩ them_occ b = ∅) := by
  by_cases hcc : can_castle b b.turn side = true
  case neg =>
    constructor
    · intro hm
      unfold castling_side at hm
      rw [if_neg (fun hc => hcc hc.2.1)] at hm
      cases hm
    · rintro ⟨hc, -⟩
      exact absurd hc hcc
  case pos =>
    obtain ⟨hks, hrook⟩ := hinv hcc
    have hckE : attackers_to b (king_sq b b.turn) (get_occupied b) ∩ them_occ b = ∅ := by
      unfold in_check checkers at hck
      refine Finset.not_nonempty_iff_eq_empty.1 (fun hne => ?_)
      rw [decide_eq_true hne] at hck
      cases hck
    rw [hks] at hckE
    by_cases himp : castle_impeded b side = true
    case pos =>
      constructor
      · intro hm
        unfold castling_side at hm
        rw [if_neg (fun hc => hc.1 himp)] at hm
        cases hm
      · rintro ⟨-, hemp, -⟩
        unfold castle_impeded at himp
        have hne := of_decide_eq_true himp
        rw [hemp] at hne
        exact absurd hne (by simp)
    case neg =>
      have hemp : betweenBB (king_sq b b.turn) (castling_rook_square b.turn side) ∩
          get_occupied b = ∅ := by
        refine Finset.not_nonempty_iff_eq_empty.1 (fun hne => ?_)
        exact himp (by
          unfold castle_impeded
          exact decide_eq_true hne)
      unfold castling_side
      rw [if_pos ⟨himp, hcc, hrook⟩]
      dsimp only
      rw [hks]
      cases hturn : b.turn <;> cases hside : side
      · simp only [hturn, hside] at hcc hemp hckE hrook hks
        rw [hks] at hemp
        simp only [eq_self_iff_true, if_true]
        simp only [show rel_sq Player.White 4 = (4 : Square) from by decide,
          show rel_sq Player.White 6 = (6 : Square) from by decide,
          show rel_sq Player.White 2 = (2 : Square) from by decide] at hemp hckE ⊢
        constructor
        · intro hm
          refine ⟨hcc, hemp, ?_⟩
          by_cases hwalk : castle_path_ok b 4 (-1) 8 6 = true
          · have hw := (castle_walk2 b 4 6 5 (-1) (by decide) (by decide)
              (by decide) (by decide)).1 hwalk
            intro s hs
            have hs3 : s = 4 ∨ s = 6 ∨ s = 5 := by
              revert hs
              revert s
              decide
            rcases hs3 with rfl | rfl | rfl
            · exact hckE
            · exact hw.1
            · exact hw.2
          · rw [if_neg hwalk] at hm
            cases hm
        · rintro ⟨-, -, hpath⟩
          rw [if_pos ((castle_walk2 b 4 6 5 (-1) (by decide) (by decide)
            (by decide) (by decide)).2 ⟨hpath 6 (by decide), hpath 5 (by decide)⟩)]
          exact List.mem_singleton.2 rfl
      · simp only [hturn, hside] at hcc hemp hckE hrook hks
        rw [hks] at hemp
        simp only [ite_castle_false]
        simp only [show rel_sq Player.White 4 = (4 : Square) from by decide,
          show rel_sq Player.White 6 = (6 : Square) from by decide,
          show rel_sq Player.White 2 = (2 : Square) from by decide] at hemp hckE ⊢
        constructor
        · intro hm
          refine ⟨hcc, hemp, ?_⟩
          by_cases hwalk : castle_path_ok b 4 (1) 8 2 = true
          · have hw := (castle_walk2 b 4 2 3 (1) (by decide) (by decide)
              (by decide) (by decide)).1 hwalk
            intro s hs
            have hs3 : s = 4 ∨ s = 2 ∨ s = 3 := by
              revert hs
              revert s
              decide
            rcases hs3 with rfl | rfl | rfl
            · exact hckE
            · exact hw.1
            · exact hw.2
          · rw [if_neg hwalk] at hm
            cases hm
        · rintro ⟨-, -, hpath⟩
          rw [if_pos ((castle_walk2 b 4 2 3 (1) (by decide) (by decide)
            (by decide) (by decide)).2 ⟨hpath 2 (by decide), hpath 3 (by decide)⟩)]
          exact List.mem_singleton.2 rfl
      · simp only [hturn, hside] at hcc hemp hckE hrook hks
        rw [hks] at hemp
        simp only [eq_self_iff_true, if_true]
        simp only [show rel_sq Player.Black 4 = (60 : Square) from by decide,
          show rel_sq Player.Black 6 = (62 : Square) from by decide,
          show rel_sq Player.Black 2 = (58 : Square) from by decide] at hemp hckE ⊢
        constructor
        · intro hm
          refine ⟨hcc, hemp, ?_⟩
          by_cases hwalk : castle_path_ok b 60 (-1) 8 62 = true
          · have hw := (castle_walk2 b 60 62 61 (-1) (by decide) (by decide)
              (by decide) (by decide)).1 hwalk
            intro s hs
            have hs3 : s = 60 ∨ s = 62 ∨ s = 61 := by
              revert hs
              revert s
              decide
            rcases hs3 with rfl | rfl | rfl
            · exact hckE
            · exact hw.1
            · exact hw.2
          · rw [if_neg hwalk] at hm
            cases hm
        · rintro ⟨-, -, hpath⟩
          rw [if_pos ((castle_walk2 b 60 62 61 (-1) (by decide) (by decide)
            (by decide) (by decide)).2 ⟨hpath 62 (by decide), hpath 61 (by decide)⟩)]
          exact List.mem_singleton.2 rfl
      · simp only [hturn, hside] at hcc hemp hckE hrook hks
        rw [hks] at hemp
        simp only [ite_castle_false]
        simp only [show rel_sq Player.Black 4 = (60 : Square) from by decide,
          show rel_sq Player.Black 6 = (62 : Square) from by decide,
          show rel_sq Player.Black 2 = (58 : Square) from by decide] at hemp hckE ⊢
        constructor
        · intro hm
          refine ⟨hcc, hemp, ?_⟩
          by_cases hwalk : castle_path_ok b 60 (1) 8 58 = true
          · have hw := (castle_walk2 b 60 58 59 (1) (by decide) (by decide)
              (by decide) (by decide)).1 hwalk
            intro s hs
            have hs3 : s = 60 ∨ s = 58 ∨ s = 59 := by
              revert hs
              revert s
              decide
            rcases hs3 with rfl | rfl | rfl
            · exact hckE
            · exact hw.1
            · exact hw.2
          · rw [if_neg hwalk] at hm
            cases hm
        · rintro ⟨-, -, hpath⟩
          rw [if_pos ((castle_walk2 b 60 58 59 (1) (by decide) (by decide)
            (by decide) (by decide)).2 ⟨hpath 58 (by decide), hpath 59 (by decide)⟩)]
          exact List.mem_singleton.2 rfl


/-- A castling position: White Ke1, Rh1; Black Ke8; White may castle
king-side. -/
def c4_board : Board where
  pieces := fun p pc =>
    match p, pc with
    | .White, .R => {7}
    | .White, .K => {4}
    | .Black, .K => {60}
    | _, _ => ∅
  turn := .White
  castle_rights := fun p s => p = Player.White ∧ s = CastleType.KingSide
  ep := none

/-- Witness for C4 on the concrete castling position. -/
theorem c4_castling_iff_witness :
    in_check c4_board = false ∧
      (((⟨king_sq c4_board c4_board.turn,
            castling_rook_square c4_board.turn CastleType.KingSide,
            MoveFlag.Castle
              (decide (CastleType.KingSide = CastleType.KingSide))⟩ : BitMove) ∈
            castling_side false c4_board.turn CastleType.KingSide c4_board) ↔
        (can_castle c4_board c4_board.turn CastleType.KingSide = true ∧
          betweenBB (king_sq c4_board c4_board.turn)
              (castling_rook_square c4_board.turn CastleType.KingSide) ∩
              get_occupied c4_board = ∅ ∧
          ∀ s ∈ king_path c4_board.turn CastleType.KingSide,
            attackers_to c4_board s (get_occupied c4_board) ∩ them_occ c4_board = ∅)) :=
  ⟨by decide,
    c4_castling_iff c4_board CastleType.KingSide (by decide)
      (fun _ => ⟨by decide, by decide⟩)⟩


/-! ### Claim C6: the en-passant invariant.  The spec has the ranks swapped:
after a double push by White it is Black to move with the en-passant square
on rank 3, and after a double push by Black it is White to move with the
en-passant square on rank 6 — exactly what the generator's own assertion
(`relative_rank(turn, R6)`) demands. -/

theorem mem_shiftD (df dr : Int) (s : BB) (d : Square) :
    d ∈ shiftD df dr s ↔ ∃ a ∈ s, offD a df dr = some d := by
  simp [shiftD, Finset.mem_biUnion, Option.mem_toFinset, Option.mem_def]

theorem shiftD_mono (df dr : Int) {s t : BB} (h : s ⊆ t) :
    shiftD df dr s ⊆ shiftD df dr t := by
  intro x hx
  rw [mem_shiftD] at hx ⊢
  obtain ⟨a, ha, hoff⟩ := hx
  exact ⟨a, h ha, hoff⟩

theorem shift_up_mono (p : Player) {s t : BB} (h : s ⊆ t) :
    shift_up p s ⊆ shift_up p t := shiftD_mono 0 (pawn_dr p) h

/-- Every double-push destination is a one-rank advance of a relative-rank-3
square. -/
theorem push_two_fin_rank (gt : GenTypes) (p : Player) (b : Board) (target : BB) :
    push_two_fin gt p b target ⊆ shift_up p (pawn_rank_3 p) := by
  have hpre : push_two_pre gt p b target ⊆ shift_up p (pawn_rank_3 p) :=
    Finset.inter_subset_left.trans (shift_up_mono p Finset.inter_subset_right)
  have hev : push_two_ev gt p b target ⊆ shift_up p (pawn_rank_3 p) :=
    (push_two_ev_sub gt p b target).trans hpre
  unfold push_two_fin
  split
  · refine Finset.union_subset (Finset.inter_subset_left.trans hev) ?_
    split
    · exact Finset.inter_subset_left.trans (shift_up_mono p Finset.inter_subset_left)
    · exact Finset.empty_subset _
  · exact hev

theorem pawn_promos_flag {gt : GenTypes} {p : Player} {b : Board} {target : BB}
    {m : BitMove} (h : m ∈ pawn_promos false gt p b target) :
    ∃ c pr, m.flag = .Promotion c pr := by
  by_cases hcond : (pawns_on_7 p b).Nonempty ∧
      (gt ≠ .Evasions ∨ (target ∩ pawn_rank_8 p).Nonempty)
  · rcases (mem_pawn_promos_false hcond).1 h with ⟨d, _, pr, _, rfl⟩ |
      ⟨d, _, pr, _, rfl⟩ | ⟨d, _, pr, _, rfl⟩ <;> exact ⟨_, _, rfl⟩
  · rw [pawn_promos_skip hcond] at h
    cases h

theorem pawn_caps_flag {gt : GenTypes} {p : Player} {b : Board} {target : BB}
    {m : BitMove} (h : m ∈ pawn_caps false gt p b target) :
    ∃ c, m.flag = .Capture c := by
  by_cases hgt : gt = .Captures ∨ gt = .Evasions ∨ gt = .NonEvasions ∨ gt = .All
  · rcases (mem_pawn_caps_false hgt).1 h with ⟨d, _, rfl⟩ | ⟨d, _, rfl⟩ | hp
    · exact ⟨false, rfl⟩
    · exact ⟨false, rfl⟩
    · exact ⟨true, (mem_pawn_ep_elim hp).2⟩
  · rw [pawn_caps_skip hgt] at h
    cases h

theorem mpp_flag {p : Player} {b : Board} {pc : Piece} {target : BB} {m : BitMove}
    (h : m ∈ moves_per_piece false p b pc target) :
    m.flag = .Capture false ∨ m.flag = .QuietMove := by
  rw [mem_mpp_false] at h
  rcases h.2 with ⟨hf, -⟩ | ⟨hf, -⟩
  · exact Or.inl hf
  · exact Or.inr hf

/-- Only the double-push loop emits the `DoublePawnPush` flag, and its
destinations advance a relative-rank-3 square by one rank. -/
theorem gen_all_dpp {gt : GenTypes} {p : Player} {b : Board} {target : BB} {m : BitMove}
    (h : m ∈ generate_all false gt p b target) (hf : m.flag = .DoublePawnPush) :
    m.dst ∈ shift_up p (pawn_rank_3 p) := by
  unfold generate_all generate_pawn_moves at h
  simp only [List.mem_append] at h
  rcases h with (((((((hp | hp) | hp) | hn) | hb) | hr) | hq) | hk) | hc
  · by_cases hgt : gt = .Captures
    · subst hgt
      rw [pawn_pushes_captures] at hp
      cases hp
    · rcases (mem_pawn_pushes_false hgt).1 hp with ⟨d, hd, rfl⟩ | ⟨d, hd, rfl⟩
      · cases hf
      · exact push_two_fin_rank gt p b target hd
  · obtain ⟨c, pr, hg⟩ := pawn_promos_flag hp
    rw [hf] at hg
    cases hg
  · obtain ⟨c, hg⟩ := pawn_caps_flag hp
    rw [hf] at hg
    cases hg
  · rcases mpp_flag hn with hg | hg <;> rw [hf] at hg <;> cases hg
  · rcases mpp_flag hb with hg | hg <;> rw [hf] at hg <;> cases hg
  · rcases mpp_flag hr with hg | hg <;> rw [hf] at hg <;> cases hg
  · rcases mpp_flag hq with hg | hg <;> rw [hf] at hg <;> cases hg
  · revert hk
    split
    · intro hk
      rcases mpp_flag hk with hg | hg <;> rw [hf] at hg <;> cases hg
    · intro hk
      cases hk
  · revert hc
    split
    · intro hc
      rcases List.mem_append.1 hc with hc | hc <;>
      · rw [mem_castling_side_elim hc] at hf
        cases hf
    · intro hc
      cases hc

/-- Double pushes in `gen(All)` land one rank above a relative-rank-3
square. -/
theorem dpp_shape {b : Board} {m : BitMove} (h : m ∈ generate false .All b)
    (hf : m.flag = .DoublePawnPush) :
    m.dst ∈ shift_up b.turn (pawn_rank_3 b.turn) := by
  unfold generate generate_helper at h
  rw [if_neg (show ¬ GenTypes.All = GenTypes.Evasions by decide),
    if_neg (show ¬ GenTypes.All = GenTypes.QuietChecks by decide),
    if_pos rfl] at h
  revert h
  split
  · intro h
    unfold generate_evasions at h
    simp only [List.mem_append] at h
    rcases h with (hk | hk) | hg
    · have hg := (mem_mafb hk).2.2
      rw [hf] at hg
      cases hg
    · have hg := (mem_mafb hk).2.2
      rw [hf] at hg
      cases hg
    · revert hg
      split
      · intro hg
        exact gen_all_dpp hg hf
      · intro hg
        cases hg
  · intro h
    unfold generate_non_evasions at h
    exact gen_all_dpp h hf

/-- Vertical offsets exist inside the board and act on rank and file as
expected. -/
theorem offD_vert (s : Square) (dr : Int) (h0 : 0 ≤ (rankOf s : Int) + dr)
    (h8 : (rankOf s : Int) + dr < 8) :
    ∃ t : Square, offD s 0 dr = some t ∧
      (rankOf t : Int) = (rankOf s : Int) + dr ∧ fileOf t = fileOf s := by
  have hf : fileOf s < 8 := Nat.mod_lt _ (by omega)
  unfold offD
  rw [dif_pos (show 0 ≤ (fileOf s : Int) + 0 ∧ (fileOf s : Int) + 0 < 8 ∧
      0 ≤ (rankOf s : Int) + dr ∧ (rankOf s : Int) + dr < 8 by
    refine ⟨by omega, by omega, h0, h8⟩)]
  refine ⟨_, rfl, ?_, ?_⟩
  · simp only [rankOf, fileOf] at h0 h8 hf ⊢
    omega
  · simp only [rankOf, fileOf] at h0 h8 hf ⊢
    omega

/-- Rank and file determine a square. -/
theorem sq_eq_of (a b : Square) (hr : rankOf a = rankOf b)
    (hfile : fileOf a = fileOf b) : a = b := by
  refine Fin.ext ?_
  have ha := a.isLt
  have hb := b.isLt
  simp only [rankOf, fileOf] at hr hfile
  omega

theorem mem_pawn_rank_3 {p : Player} {a : Square} :
    a ∈ pawn_rank_3 p ↔ rankOf a = (if p = .White then 2 else 5) := by
  cases p <;> simp [pawn_rank_3, rank_bb]

/-- The amended en-passant invariant: the square sits on rank 6 (index 5)
when White is to move and on rank 3 (index 2) when Black is to move — the
relative rank 6 of the side to move — and the pawn that just double-pushed
stands on the adjacent square beyond it. -/
def ep_inv_amended (b : Board) : Prop :=
  ∀ e, b.ep = some e →
    rankOf e = (if b.turn = .White then 5 else 2) ∧
      ∃ s, offD e 0 (if b.turn = .White then -1 else 1) = some s ∧
        s ∈ b.pieces b.turn.other .P

/-- The rank half of the claim as stated by the spec: rank 3 (index 2) when
White is to move, rank 6 (index 5) when Black is to move. -/
def ep_rank_claimed (b : Board) : Prop :=
  ∀ e, b.ep = some e → rankOf e = (if b.turn = .White then 2 else 5)


theorem player_other_other (p : Player) : p.other.other = p := by
  cases p <;> rfl

/-- Claim C6 (amended): every position reachable by applying generated legal
moves satisfies the corrected en-passant invariant — and with it the
generator's own assertion `rank_of(ep) = relative_rank(turn, R6)`. -/
theorem c6_ep_invariant_amended (b : Board) (hr : Reachable b) :
    ep_inv_amended b ∧ ep_rank_assert b.turn b = true := by
  induction hr with
  | start =>
    refine ⟨fun e he => ?_, rfl⟩
    rw [show start_board.ep = none from rfl] at he
    cases he
  | step b m hr2 hmem hleg ih =>
    have hmain : ep_inv_amended (make_move b m) := by
      obtain ⟨src, dst, flag⟩ := m
      cases flag with
      | QuietMove =>
        intro e he
        have hnone : (make_move b ⟨src, dst, .QuietMove⟩).ep = none := rfl
        rw [hnone] at he
        cases he
      | Castle ks =>
        intro e he
        have hnone : (make_move b ⟨src, dst, .Castle ks⟩).ep = none := rfl
        rw [hnone] at he
        cases he
      | Promotion c pr =>
        intro e he
        have hnone : (make_move b ⟨src, dst, .Promotion c pr⟩).ep = none := rfl
        rw [hnone] at he
        cases he
      | Capture c =>
        cases c with
        | true =>
          intro e he
          have hnone : (make_move b ⟨src, dst, .Capture true⟩).ep = none := rfl
          rw [hnone] at he
          cases he
        | false =>
          intro e he
          have hnone : (make_move b ⟨src, dst, .Capture false⟩).ep = none := rfl
          rw [hnone] at he
          cases he
      | DoublePawnPush =>
        intro e he
        have hep : (make_move b ⟨src, dst, .DoublePawnPush⟩).ep =
            some (down b.turn dst) := rfl
        rw [hep] at he
        obtain rfl : e = down b.turn dst := by
          injection he with he2
          exact he2.symm
        have hturn2 : (make_move b ⟨src, dst, .DoublePawnPush⟩).turn = b.turn.other :=
          rfl
        have hpawn : dst ∈
            (make_move b ⟨src, dst, .DoublePawnPush⟩).pieces b.turn Piece.P := by
          show dst ∈ (if b.turn = b.turn ∧ Piece.P = Piece.P then
            insert dst (((b.pieces b.turn Piece.P).erase src).erase dst)
            else ((b.pieces b.turn Piece.P).erase src).erase dst)
          rw [if_pos ⟨rfl, rfl⟩]
          exact Finset.mem_insert_self _ _
        have hdst : dst ∈ shift_up b.turn (pawn_rank_3 b.turn) := dpp_shape hmem rfl
        unfold shift_up at hdst
        obtain ⟨a, ha3, hoff⟩ := (mem_shiftD _ _ _ _).1 hdst
        have hranka := mem_pawn_rank_3.1 ha3
        rw [hturn2]
        cases hturn : b.turn with
        | White =>
          rw [hturn] at hranka hoff hpawn
          have hra : rankOf a = 2 := by simpa using hranka
          obtain ⟨t, ht, htr, htf⟩ := offD_vert a 1 (by omega) (by omega)
          rw [show pawn_dr Player.White = (1 : Int) from rfl] at hoff
          rw [hoff] at ht
          obtain rfl : dst = t := by
            injection ht
          have hrdst : rankOf dst = 3 := by omega
          obtain ⟨e2, he2, he2r, he2f⟩ := offD_vert dst (-1) (by omega) (by omega)
          have hdown : down Player.White dst = e2 := by
            unfold down pawn_dr
            rw [show (-(1 : Int)) = (-1 : Int) from rfl, he2]
            rfl
          rw [hdown]
          have hre2 : rankOf e2 = 2 := by omega
          refine ⟨by simp [Player.other, hre2], ?_⟩
          obtain ⟨t2, ht2, ht2r, ht2f⟩ := offD_vert e2 1 (by omega) (by omega)
          refine ⟨t2, by simpa [Player.other] using ht2, ?_⟩
          obtain rfl : dst = t2 := by
            refine sq_eq_of dst t2 (by omega) (by rw [ht2f, he2f])
          simpa [Player.other, hturn] using hpawn
        | Black =>
          rw [hturn] at hranka hoff hpawn
          have hra : rankOf a = 5 := by simpa using hranka
          obtain ⟨t, ht, htr, htf⟩ := offD_vert a (-1) (by omega) (by omega)
          rw [show pawn_dr Player.Black = (-1 : Int) from rfl] at hoff
          rw [hoff] at ht
          obtain rfl : dst = t := by
            injection ht
          have hrdst : rankOf dst = 4 := by omega
          obtain ⟨e2, he2, he2r, he2f⟩ := offD_vert dst 1 (by omega) (by omega)
          have hdown : down Player.Black dst = e2 := by
            unfold down pawn_dr
            rw [show (-(-1 : Int)) = (1 : Int) from by omega, he2]
            rfl
          rw [hdown]
          have hre2 : rankOf e2 = 5 := by omega
          refine ⟨by simp [Player.other, hre2], ?_⟩
          obtain ⟨t2, ht2, ht2r, ht2f⟩ := offD_vert e2 (-1) (by omega) (by omega)
          refine ⟨t2, by simpa [Player.other] using ht2, ?_⟩
          obtain rfl : dst = t2 := by
            refine sq_eq_of dst t2 (by omega) (by rw [ht2f, he2f])
          simpa [Player.other, hturn] using hpawn
    refine ⟨hmain, ?_⟩
    unfold ep_rank_assert
    cases he : (make_move b m).ep with
    | none => rfl
    | some e =>
      obtain ⟨hrank, -⟩ := hmain e he
      exact decide_eq_true hrank

/-- Witness for the amended C6 at the start position. -/
theorem c6_ep_invariant_amended_witness :
    ep_inv_amended start_board ∧ ep_rank_assert start_board.turn start_board = true :=
  c6_ep_invariant_amended start_board Reachable.start

/-- Counterexample for C6 as stated: after the reachable double push e2-e4
the en-passant square is e3 — rank 3 with Black to move — while the claim
demands rank 6 when Black is to move. -/
theorem c6_rank_claim_fails :
    Reachable (make_move start_board ⟨12, 28, .DoublePawnPush⟩) ∧
      (make_move start_board ⟨12, 28, .DoublePawnPush⟩).ep = some 20 ∧
      (make_move start_board ⟨12, 28, .DoublePawnPush⟩).turn = Player.Black ∧
      rankOf 20 = 2 ∧
      ¬ ep_rank_claimed (make_move start_board ⟨12, 28, .DoublePawnPush⟩) :=
  ⟨Reachable.step start_board ⟨12, 28, .DoublePawnPush⟩ Reachable.start (by decide)
      (by decide),
    by decide, rfl, by decide, by unfold ep_rank_claimed; decide⟩

end Pleco
